import Mathlib

/-! # token-visualizer: cache store, tokenizer adapters and renderers

A shallow embedding of `internal/cache`, `internal/tokenizers` and
`internal/output`, followed by the properties proved about them.

Conventions of the embedding

* Go `string` is `String`; `len(s)` is `String.utf8ByteSize`.
* Go `int` is `Int`, restricted to the 64-bit range where a conversion checks it.
* Third-party engines (sha256, tiktoken, sentencepiece, the HuggingFace
  tokenizer, lipgloss, the HTTP transport, the JSON decoding of the response
  payload) are parameters of the definitions that call them.
* Stateful code passes its state explicitly: the file system for the cache and
  the log of requests sent for the HTTP client.
-/

namespace TokenVisualizer

/-! ## Go runtime pieces used by the cache -/

/-- Smallest value of a Go `int` on a 64-bit platform. -/
def minInt : Int := -9223372036854775808

/-- Largest value of a Go `int` on a 64-bit platform. -/
def maxInt : Int := 9223372036854775807

/-- The values a Go `int` can hold. -/
def IsGoInt (v : Int) : Prop := minInt ≤ v ∧ v ≤ maxInt

instance (v : Int) : Decidable (IsGoInt v) := by
  unfold IsGoInt; exact inferInstance

/-- Decimal digits of `n`, least significant first; `fuel` bounds the recursion. -/
def decimalDigitsRev : Nat → Nat → List Nat
  | 0, _ => []
  | fuel + 1, n => if n < 10 then [n] else (n % 10) :: decimalDigitsRev fuel (n / 10)

/-- The character of a decimal digit. -/
def digitChar (d : Nat) : Char := Char.ofNat (48 + d)

/-- Decimal rendering of a natural number, as `strconv` prints it. -/
def natToDecimal (n : Nat) : List Char :=
  ((decimalDigitsRev (n + 1) n).reverse).map digitChar

/-- Decimal rendering of an integer (`strconv.FormatInt(v, 10)`, the `%d` verb). -/
def intToDecimal (v : Int) : List Char :=
  match v with
  | Int.ofNat n => natToDecimal n
  | Int.negSucc n => '-' :: natToDecimal (n + 1)

/-- The verb `%d` of `fmt.Sprintf` applied to an `int`. -/
def fmtInt (v : Int) : String := String.mk (intToDecimal v)

/-- Encoding of an `int` with `json.Marshal`: its decimal rendering. -/
def jsonMarshalInt (v : Int) : String := String.mk (intToDecimal v)

/-- JSON insignificant whitespace. -/
def isJSONSpace (c : Char) : Bool := c = ' ' || c = '\t' || c = '\r' || c = '\n'

/-- Strip JSON whitespace at both ends. -/
def trimJSONSpace (cs : List Char) : List Char :=
  ((cs.dropWhile isJSONSpace).reverse.dropWhile isJSONSpace).reverse

/-- Is the character a decimal digit. -/
def isDecDigit (c : Char) : Bool := decide (48 ≤ c.toNat) && decide (c.toNat ≤ 57)

/-- Value of a sequence of decimal digit characters, most significant first. -/
def digitsValue (cs : List Char) : Nat :=
  cs.foldl (fun acc c => 10 * acc + (c.toNat - 48)) 0

/-- A JSON integer literal without sign: `0` or a digit string with no leading zero. -/
def parseJSONNat (cs : List Char) : Option Nat :=
  match cs with
  | [] => none
  | '0' :: _ :: _ => none
  | c :: rest => if (c :: rest).all isDecDigit then some (digitsValue (c :: rest)) else none

/-- A JSON number literal that `strconv.ParseInt(_, 10, 64)` accepts. -/
def parseJSONInt (cs : List Char) : Option Int :=
  match cs with
  | '-' :: rest => (parseJSONNat rest).map (fun n => -(n : Int))
  | _ => (parseJSONNat cs).map (fun n => (n : Int))

/-- Decoding with `json.Unmarshal(data, &value)` for `value` of type `int` holding `old`:
the new content of `value`, or `none` for an error. The literal `null` leaves
the target untouched and reports no error; a number literal must be an integer
in the range of `int`; every other input is an error. -/
def jsonUnmarshalInt (data : String) (old : Int) : Option Int :=
  let cs := trimJSONSpace data.data
  if cs = ['n', 'u', 'l', 'l'] then some old
  else match parseJSONInt cs with
    | some v => if IsGoInt v then some v else none
    | none => none

/-! ## File system seen by the cache -/

/-- A file path as `filepath.Join(dir, base)` builds it. -/
structure Path where
  dir : String
  base : String
  deriving DecidableEq, Repr

/-- The part of the file system the cache touches: the directories that exist
and the regular files with their content. -/
structure FS where
  dirs : List String
  files : List (Path × String)
  deriving DecidableEq, Repr

/-- Errors of the `os` package that the cache tells apart. -/
inductive OSError where
  | notExist
  | other
  deriving DecidableEq, Repr

/-- Lookup of a path among the files. -/
def lookupFile (p : Path) : List (Path × String) → Option String
  | [] => none
  | (q, d) :: rest => if q = p then some d else lookupFile p rest

/-- Contents function of `os.ReadFile`. -/
def FS.readFile (fs : FS) (p : Path) : Except OSError String :=
  if p.dir ∈ fs.dirs then
    match lookupFile p fs.files with
    | some d => .ok d
    | none => .error .notExist
  else .error .notExist

/-- State change of `os.WriteFile(path, data, 0644)`: creates or truncates the file; the
directory of the path has to exist. -/
def FS.writeFile (fs : FS) (p : Path) (data : String) : Except OSError FS :=
  if p.dir ∈ fs.dirs then
    .ok { fs with files := (p, data) :: fs.files.filter (fun e => decide (e.1 ≠ p)) }
  else .error .notExist

/-- State change of `os.MkdirAll(dir, 0755)` in a file system that keeps directories by their
full name: the directory exists afterwards. The parents of `dir` are not kept apart, and the
failures of the call (a regular file in the way, a missing permission) are not modelled: the
call is described on the states where it succeeds. -/
def FS.mkdirAll (fs : FS) (dir : String) : Except OSError FS :=
  if dir ∈ fs.dirs then .ok fs else .ok { fs with dirs := dir :: fs.dirs }

/-- State change of `os.RemoveAll(dir)`: removes the directory and everything in it; no error
when the directory is already gone. -/
def FS.removeAll (fs : FS) (dir : String) : Except OSError FS :=
  .ok { dirs := fs.dirs.filter (fun d => decide (d ≠ dir)),
        files := fs.files.filter (fun e => decide (e.1.dir ≠ dir)) }

/-! ## internal/cache/cache.go -/

/-- Errors returned by the cache, one constructor per `fmt.Errorf` of the source. -/
inductive CacheError where
  /-- Message "failed to get home directory: %w". -/
  | homeDir
  /-- Message "failed to create cache directory: %w". -/
  | createDir
  /-- Message "cache miss: %w". -/
  | cacheMiss
  /-- Message "failed to read cache file: %w". -/
  | readFailed
  /-- Message "failed to unmarshal cache data: %w". -/
  | unmarshalFailed
  /-- Message "failed to marshal cache data: %w". -/
  | marshalFailed
  /-- Message "failed to write cache file: %w". -/
  | writeFailed
  deriving DecidableEq, Repr

/-- The struct `Cache` (its mutex is not modelled). -/
structure Cache where
  dir : String
  deriving DecidableEq, Repr

/-- The method `keyToPath`; `sha256Hex key` stands for
`hex.EncodeToString(sha256.Sum256([]byte(key)))`. -/
def Cache.keyToPath (sha256Hex : String → String) (c : Cache) (key : String) : Path :=
  { dir := c.dir, base := sha256Hex key ++ ".json" }

/-- The constructor `NewCache`; `homeDir` is the result of `os.UserHomeDir()`, taken as a
clean path without a trailing separator, for which
`filepath.Join(homeDir, ".cache", "token-visualizer")` is the concatenation written here (the
cleaning that `filepath.Join` applies to other paths is not modelled). -/
def NewCache (homeDir : Option String) (fs : FS) (dir : String) : Except CacheError (Cache × FS) :=
  let resolved : Except CacheError String :=
    if dir = "" then
      match homeDir with
      | none => .error .homeDir
      | some h => .ok (h ++ "/.cache/token-visualizer")
    else .ok dir
  match resolved with
  | .error e => .error e
  | .ok d =>
    match fs.mkdirAll d with
    | .error _ => .error .createDir
    | .ok fs1 => .ok ({ dir := d }, fs1)

/-- The method `Get` for a target of type `*int` holding `value`: the new content of the
target, or the error. -/
def Cache.Get (sha256Hex : String → String) (c : Cache) (fs : FS) (key : String) (value : Int) :
    Except CacheError Int :=
  let filePath := c.keyToPath sha256Hex key
  match fs.readFile filePath with
  | .error .notExist => .error .cacheMiss
  | .error .other => .error .readFailed
  | .ok data =>
    match jsonUnmarshalInt data value with
    | none => .error .unmarshalFailed
    | some v => .ok v

/-- The method `Set` for a value of type `int`: the file system after the call, or the
error (the file system is then unchanged). -/
def Cache.Set (sha256Hex : String → String) (c : Cache) (fs : FS) (key : String) (value : Int) :
    Except CacheError FS :=
  let data := jsonMarshalInt value
  let filePath := c.keyToPath sha256Hex key
  match fs.writeFile filePath data with
  | .error _ => .error .writeFailed
  | .ok fs1 => .ok fs1

/-- The method `Clear`. -/
def Cache.Clear (c : Cache) (fs : FS) : Except OSError FS :=
  fs.removeAll c.dir

/-- The file system after a sequence of `Set` calls, failed calls leaving it as it was. -/
def Cache.setAll (sha256Hex : String → String) (c : Cache) (fs : FS) :
    List (String × Int) → FS
  | [] => fs
  | (k, v) :: rest =>
    match c.Set sha256Hex fs k v with
    | .ok fs1 => Cache.setAll sha256Hex c fs1 rest
    | .error _ => Cache.setAll sha256Hex c fs rest

/-! ## internal/tokenizers/interface.go -/

/-- The struct `Token`. -/
structure Token where
  Text : String
  ID : Int
  Start : Int
  End : Int
  deriving DecidableEq, Repr

/-- The struct `TokenizationResult`. -/
structure TokenizationResult where
  Tokens : List Token
  TotalCount : Int
  Text : String
  Model : String
  deriving DecidableEq, Repr

/-- The builtin `len` on a Go string: its length in bytes. -/
def strLen (s : String) : Int := (s.utf8ByteSize : Int)

/-- Errors returned by the tokenizer adapters, one constructor per `fmt.Errorf` of
the source. -/
inductive TokenizerError where
  /-- Message "failed to marshal request: %w". -/
  | marshalRequest
  /-- Message "failed to create request: %w". -/
  | createRequest
  /-- Message "failed to send request: %w". -/
  | sendRequest
  /-- Message "API request failed with status %d: %s". -/
  | apiStatus (statusCode : Int) (body : String)
  /-- Message "failed to decode response: %w". -/
  | decodeResponse
  /-- Message "failed to encode text: %w". -/
  | encodeText
  /-- Message "failed to count tokens: %w". -/
  | countTokens
  deriving DecidableEq, Repr

/-! ## internal/tokenizers/claude.go -/

/-- The struct `message`. -/
structure message where
  Role : String
  Content : String
  deriving DecidableEq, Repr

/-- The struct `claudeTokenCountRequest`. -/
structure claudeTokenCountRequest where
  Model : String
  Messages : List message
  deriving DecidableEq, Repr

/-- The HTTP request `CountTokens` builds: method, URL, headers in the order they are set,
and the body before `json.Marshal`. -/
structure HTTPRequest where
  method : String
  url : String
  headers : List (String × String)
  body : claudeTokenCountRequest
  deriving DecidableEq, Repr

/-- What `client.Do` gives back: a transport error, or a response with its status code and
body. -/
inductive DoResult where
  | transportError
  | response (statusCode : Int) (body : String)
  deriving DecidableEq, Repr

/-- The collaborators of the remote adapter. `client sent req` is the answer of the
transport to `req` after the requests `sent`; `decodeInputTokens body` is the field
`InputTokens` after `json.NewDecoder(body).Decode(&response)`, `none` when decoding fails. -/
structure Remote where
  sha256Hex : String → String
  client : List HTTPRequest → HTTPRequest → DoResult
  decodeInputTokens : String → Option Int

/-- The state the remote adapter reads and changes: the file system and the requests
handed to the transport so far. -/
structure World where
  fs : FS
  sent : List HTTPRequest
  deriving DecidableEq, Repr

/-- The struct `ClaudeTokenizer`; `cache` is `none` for the nil pointer. -/
structure ClaudeTokenizer where
  model : String
  apiKey : String
  cache : Option Cache
  deriving DecidableEq, Repr

/-- The cache key of `CountTokens`: `fmt.Sprintf("claude:%s:%s", c.model, text)`. -/
def ClaudeTokenizer.cacheKey (c : ClaudeTokenizer) (text : String) : String :=
  "claude:" ++ c.model ++ ":" ++ text

/-- The request `CountTokens` prepares for `text`. -/
def ClaudeTokenizer.request (c : ClaudeTokenizer) (text : String) : HTTPRequest :=
  { method := "POST",
    url := "https://api.anthropic.com/v1/messages/count_tokens",
    headers := [("x-api-key", c.apiKey), ("content-type", "application/json"),
      ("anthropic-version", "2023-06-01"), ("anthropic-beta", "token-counting-2024-11-01")],
    body := { Model := c.model, Messages := [{ Role := "user", Content := text }] } }

/-- The cache lookup at the top of `CountTokens`: the cached count when the cache is set and
`Get` returns no error. -/
def ClaudeTokenizer.cached (env : Remote) (c : ClaudeTokenizer) (w : World) (text : String) :
    Option Int :=
  match c.cache with
  | none => none
  | some ca =>
    match ca.Get env.sha256Hex w.fs (c.cacheKey text) 0 with
    | .ok count => some count
    | .error _ => none

/-- The method `CountTokens`: the returned pair and the state after the call. -/
def ClaudeTokenizer.CountTokens (env : Remote) (c : ClaudeTokenizer) (w : World) (text : String) :
    Except TokenizerError Int × World :=
  match c.cached env w text with
  | some count => (.ok count, w)
  | none =>
    let req := c.request text
    let w1 : World := { w with sent := w.sent ++ [req] }
    match env.client w.sent req with
    | .transportError => (.error .sendRequest, w1)
    | .response statusCode body =>
      if statusCode ≠ 200 then (.error (.apiStatus statusCode body), w1)
      else
        match env.decodeInputTokens body with
        | none => (.error .decodeResponse, w1)
        | some inputTokens =>
          match c.cache with
          | none => (.ok inputTokens, w1)
          | some ca =>
            match ca.Set env.sha256Hex w1.fs (c.cacheKey text) inputTokens with
            | .ok fs1 => (.ok inputTokens, { w1 with fs := fs1 })
            | .error _ => (.ok inputTokens, w1)

/-- The method `Encode` of the remote adapter. -/
def ClaudeTokenizer.Encode (env : Remote) (c : ClaudeTokenizer) (w : World) (text : String) :
    Except TokenizerError TokenizationResult × World :=
  match c.CountTokens env w text with
  | (.error err, w1) => (.error err, w1)
  | (.ok count, w1) =>
    (.ok { Tokens := [{ Text := text, ID := -1, Start := 0, End := strLen text }],
           TotalCount := count, Text := text, Model := c.model }, w1)

/-! ## internal/tokenizers/tiktoken.go -/

/-- The engine `tiktoken.Tiktoken`: `Encode(text, nil, nil)` and `Decode(ids)`. -/
structure Tiktoken where
  Encode : String → List Int
  Decode : List Int → String

/-- The struct `TikTokenizer`. -/
structure TikTokenizer where
  encoding : String
  encoder : Tiktoken

/-- One pass of the loop of `TikTokenizer.Encode`: the state is the slice `tokens` and
`currentPos`. -/
def TikTokenizer.step (t : TikTokenizer) (st : List Token × Int) (id : Int) : List Token × Int :=
  let tokenText := t.encoder.Decode [id]
  let token : Token :=
    { Text := tokenText, ID := id, Start := st.2, End := st.2 + strLen tokenText }
  (st.1 ++ [token], st.2 + strLen tokenText)

/-- The method `TikTokenizer.Encode`. -/
def TikTokenizer.Encode (t : TikTokenizer) (text : String) :
    Except TokenizerError TokenizationResult :=
  let tokenIDs := t.encoder.Encode text
  let tokens := (tokenIDs.foldl t.step ([], 0)).1
  .ok { Tokens := tokens, TotalCount := (tokenIDs.length : Int), Text := text,
        Model := t.encoding }

/-- The method `TikTokenizer.CountTokens`. -/
def TikTokenizer.CountTokens (t : TikTokenizer) (text : String) : Except TokenizerError Int :=
  let tokenIDs := t.encoder.Encode text
  .ok (tokenIDs.length : Int)

/-! ## internal/tokenizers/llama.go -/

/-- The conversion `int(id)` of a `uint64`. -/
def uint64ToInt (id : Nat) : Int :=
  let m := id % 18446744073709551616
  if m < 9223372036854775808 then (m : Int) else (m : Int) - 18446744073709551616

/-- The engine `sentencepiece.Model`: `Encode(text, true, true)` and `Decode(ids)`, the
ids being `uint64` values. -/
structure SentencePieceModel where
  Encode : String → List Nat
  Decode : List Nat → String

/-- The struct `LLaMATokenizer`. -/
structure LLaMATokenizer where
  model : SentencePieceModel
  modelPath : String

/-- One pass of the loop of `LLaMATokenizer.Encode`. -/
def LLaMATokenizer.step (l : LLaMATokenizer) (st : List Token × Int) (id : Nat) :
    List Token × Int :=
  let tokenText := l.model.Decode [id]
  let token : Token :=
    { Text := tokenText, ID := uint64ToInt id, Start := st.2, End := st.2 + strLen tokenText }
  (st.1 ++ [token], st.2 + strLen tokenText)

/-- The method `LLaMATokenizer.Encode`. -/
def LLaMATokenizer.Encode (l : LLaMATokenizer) (text : String) :
    Except TokenizerError TokenizationResult :=
  let tokenIDs := l.model.Encode text
  let tokens := (tokenIDs.foldl l.step ([], 0)).1
  .ok { Tokens := tokens, TotalCount := (tokenIDs.length : Int), Text := text,
        Model := "LLaMA" }

/-- The method `LLaMATokenizer.CountTokens`. -/
def LLaMATokenizer.CountTokens (l : LLaMATokenizer) (text : String) : Except TokenizerError Int :=
  let tokenIDs := l.model.Encode text
  .ok (tokenIDs.length : Int)

/-! ## internal/tokenizers/llama3.go -/

/-- The value `tokenizer.Encoding`: what `GetIds`, `GetTokens` and `GetOffsets` return. -/
structure Encoding where
  ids : List Int
  tokens : List String
  offsets : List (List Int)
  deriving DecidableEq, Repr

/-- The struct `LLaMA3Tokenizer`; `tokenizer text` is
`t.tokenizer.Encode(NewSingleEncodeInput(NewInputSequence(text)), false)`, `none` when it
returns an error. -/
structure LLaMA3Tokenizer where
  tokenizer : String → Option Encoding
  modelName : String

/-- Outcome of a call that may stop with a run-time panic. -/
inductive Run (α : Type) where
  | panic
  | done (a : α)
  deriving DecidableEq, Repr

/-- The body of the loop of `LLaMA3Tokenizer.Encode` at index `i`: the token stored in
`tokens[i]`, `none` when an index is out of range. -/
def LLaMA3Tokenizer.tokenAt (enc : Encoding) (i : Nat) : Option Token :=
  match enc.ids.get? i, enc.tokens.get? i, enc.offsets.get? i with
  | some id, some str, some off =>
    match off.get? 0, off.get? 1 with
    | some s, some e => some { Text := str, ID := id, Start := s, End := e }
    | _, _ => none
  | _, _, _ => none

/-- The loop of `LLaMA3Tokenizer.Encode` over the indices `is`. -/
def LLaMA3Tokenizer.collect (enc : Encoding) : List Nat → Option (List Token)
  | [] => some []
  | i :: rest =>
    match LLaMA3Tokenizer.tokenAt enc i with
    | none => none
    | some tok =>
      match LLaMA3Tokenizer.collect enc rest with
      | none => none
      | some toks => some (tok :: toks)

/-- The method `LLaMA3Tokenizer.Encode`. -/
def LLaMA3Tokenizer.Encode (t : LLaMA3Tokenizer) (text : String) :
    Run (Except TokenizerError TokenizationResult) :=
  match t.tokenizer text with
  | none => .done (.error .encodeText)
  | some encoding =>
    match LLaMA3Tokenizer.collect encoding (List.range encoding.ids.length) with
    | none => .panic
    | some tokens =>
      .done (.ok { Tokens := tokens, TotalCount := (tokens.length : Int), Text := text,
                   Model := t.modelName })

/-- The method `LLaMA3Tokenizer.CountTokens`. -/
def LLaMA3Tokenizer.CountTokens (t : LLaMA3Tokenizer) (text : String) :
    Run (Except TokenizerError Int) :=
  match t.tokenizer text with
  | none => .done (.error .countTokens)
  | some encoding => .done (.ok (encoding.ids.length : Int))


/-! ## Output builders -/

/-- Concatenation of the strings written to a `strings.Builder`, in order. -/
def concatStrings : List String → String
  | [] => ""
  | s :: rest => s ++ concatStrings rest

/-- What a write of a renderer carries: fixed scaffolding, the model header, the token count,
the text of a token, a boundary marker, or the ID annotation of a token. -/
inductive Part where
  | markup
  | header
  | stats
  | token
  | boundary
  | tokenID
  deriving DecidableEq, Repr

/-- One `WriteString` call of a renderer, labelled with what it carries. -/
structure Piece where
  part : Part
  text : String
  deriving DecidableEq, Repr

/-- The string a builder holds after the writes `ps`. -/
def output : List Piece → String
  | [] => ""
  | p :: rest => p.text ++ output rest

/-! ## lipgloss -/

/-- The settings of a `lipgloss.Style` that the renderer uses. -/
structure Style where
  bold : Bool
  italic : Bool
  faint : Bool
  underline : Bool
  foreground : Option String
  border : Option String
  borderForeground : Option String
  padding : List Nat
  marginBottom : Nat
  width : Nat
  deriving DecidableEq, Repr

/-- The function `lipgloss.NewStyle()`. -/
def NewStyle : Style :=
  { bold := false, italic := false, faint := false, underline := false, foreground := none,
    border := none, borderForeground := none, padding := [], marginBottom := 0, width := 0 }

/-- Setter `Bold`. -/
def Style.Bold (s : Style) (v : Bool) : Style := { s with bold := v }

/-- Setter `Italic`. -/
def Style.Italic (s : Style) (v : Bool) : Style := { s with italic := v }

/-- Setter `Faint`. -/
def Style.Faint (s : Style) (v : Bool) : Style := { s with faint := v }

/-- Setter `Underline`. -/
def Style.Underline (s : Style) (v : Bool) : Style := { s with underline := v }

/-- Setter `Foreground` with a `lipgloss.Color`. -/
def Style.Foreground (s : Style) (c : String) : Style := { s with foreground := some c }

/-- Setter `Border`, the argument naming the border (`lipgloss.RoundedBorder()`). -/
def Style.Border (s : Style) (b : String) : Style := { s with border := some b }

/-- Setter `BorderForeground`. -/
def Style.BorderForeground (s : Style) (c : String) : Style :=
  { s with borderForeground := some c }

/-- Setter `Padding`. -/
def Style.Padding (s : Style) (p : List Nat) : Style := { s with padding := p }

/-- Setter `MarginBottom`. -/
def Style.MarginBottom (s : Style) (n : Nat) : Style := { s with marginBottom := n }

/-- Setter `Width`. -/
def Style.Width (s : Style) (n : Nat) : Style := { s with width := n }

/-- The two functions of lipgloss that produce text: `Style.Render` and
`JoinHorizontal(lipgloss.Top, ...)`. -/
structure Lipgloss where
  Render : Style → String → String
  JoinHorizontalTop : List String → String

/-! ## internal/output/terminal.go -/

/-- The palette `tokenColors`. -/
def tokenColors : List String := ["205", "141", "87", "228", "118", "213", "117", "223"]

/-- The style `headerStyle`. -/
def headerStyle : Style :=
  ((((NewStyle.Bold true).Foreground "86").Border "rounded").Padding [0, 1]).MarginBottom 1

/-- The style `statsStyle`. -/
def statsStyle : Style := (NewStyle.Foreground "240").Italic true

/-- The style `tokenIDStyle`. -/
def tokenIDStyle : Style := (NewStyle.Foreground "243").Faint true

/-- The style `columnStyle`. -/
def columnStyle : Style :=
  (((NewStyle.Width 50).Padding [1]).Border "rounded").BorderForeground "240"

/-- The struct `TerminalRenderer`. -/
structure TerminalRenderer where
  showIDs : Bool
  showBoundaries : Bool
  deriving DecidableEq, Repr

/-- The style `tokenStyle` of the token at position `i`: the palette entry at
`i % len(tokenColors)`, bold. -/
def tokenStyle (i : Nat) : Style :=
  (NewStyle.Foreground
    (tokenColors.get ⟨i % tokenColors.length, Nat.mod_lt i (by decide)⟩)).Bold true

/-- The writes of one pass of the token loop of `TerminalRenderer.RenderSingle`, for the
token at position `i` of `n`. -/
def TerminalRenderer.tokenWrites (lg : Lipgloss) (r : TerminalRenderer) (n i : Nat)
    (token : Token) : List Piece :=
  [{ part := .token, text := lg.Render (tokenStyle i) token.Text }]
  ++ (if r.showBoundaries && decide ((i : Int) < (n : Int) - 1) then
        [{ part := .boundary, text := lg.Render (NewStyle.Foreground "238") "|" }]
      else [])
  ++ (if r.showIDs && decide (token.ID ≥ 0) then
        [{ part := .tokenID, text := lg.Render tokenIDStyle ("[" ++ fmtInt token.ID ++ "]") }]
      else [])

/-- The writes of `TerminalRenderer.RenderSingle`, in order. -/
def TerminalRenderer.RenderSingleWrites (lg : Lipgloss) (r : TerminalRenderer)
    (result : TokenizationResult) : List Piece :=
  [{ part := .header, text := lg.Render headerStyle ("🔤 " ++ result.Model) },
   { part := .markup, text := "\n\n" },
   { part := .stats, text := lg.Render statsStyle ("Total tokens: " ++ fmtInt result.TotalCount) },
   { part := .markup, text := "\n\n" }]
  ++ (result.Tokens.enum.map
        (fun p => TerminalRenderer.tokenWrites lg r result.Tokens.length p.1 p.2)).flatten
  ++ [{ part := .markup, text := "\n" }]

/-- The method `TerminalRenderer.RenderSingle`. -/
def TerminalRenderer.RenderSingle (lg : Lipgloss) (r : TerminalRenderer)
    (result : TokenizationResult) : String :=
  output (TerminalRenderer.RenderSingleWrites lg r result)

/-- The pieces of the string that `renderColumn` hands to `tokenStyle.Render`:
`fmt.Sprintf("[%s]", token.Text)` with boundaries shown, `token.Text` otherwise. -/
def TerminalRenderer.columnTokenParts (r : TerminalRenderer) (token : Token) : List Piece :=
  if r.showBoundaries then
    [{ part := .boundary, text := "[" }, { part := .token, text := token.Text },
     { part := .boundary, text := "]" }]
  else [{ part := .token, text := token.Text }]

/-- The writes of one pass of the token loop of `renderColumn`, for the token at
position `i`. -/
def TerminalRenderer.columnTokenWrites (lg : Lipgloss) (r : TerminalRenderer) (i : Nat)
    (token : Token) : List Piece :=
  [{ part := .token,
     text := lg.Render (tokenStyle i) (output (TerminalRenderer.columnTokenParts r token)) }]
  ++ (if r.showIDs && decide (token.ID ≥ 0) then
        [{ part := .tokenID, text := lg.Render tokenIDStyle ("(" ++ fmtInt token.ID ++ ")") }]
      else [])
  ++ [{ part := .markup, text := "\n" }]

/-- The writes of `renderColumn` to its builder `content`, in order. -/
def TerminalRenderer.columnWrites (lg : Lipgloss) (r : TerminalRenderer)
    (result : TokenizationResult) : List Piece :=
  [{ part := .header,
     text := lg.Render (((NewStyle.Bold true).Foreground "86").Underline true) result.Model },
   { part := .markup, text := "\n\n" },
   { part := .stats, text := lg.Render statsStyle ("Tokens: " ++ fmtInt result.TotalCount) },
   { part := .markup, text := "\n\n" }]
  ++ (result.Tokens.enum.map
        (fun p => TerminalRenderer.columnTokenWrites lg r p.1 p.2)).flatten

/-- The method `renderColumn`. -/
def TerminalRenderer.renderColumn (lg : Lipgloss) (r : TerminalRenderer)
    (result : TokenizationResult) : String :=
  lg.Render columnStyle (output (TerminalRenderer.columnWrites lg r result))

/-- The method `TerminalRenderer.RenderComparison`. -/
def TerminalRenderer.RenderComparison (lg : Lipgloss) (r : TerminalRenderer)
    (results : List TokenizationResult) : String :=
  match results with
  | [] => ""
  | [result] => TerminalRenderer.RenderSingle lg r result
  | _ => lg.JoinHorizontalTop (results.map (TerminalRenderer.renderColumn lg r))

/-! ## internal/output/markdown.go -/

/-- The call `strings.ReplaceAll(s, old, new)` for a one-character `old`. -/
def replaceAllChar (s : String) (old : Char) (new : String) : String :=
  concatStrings (s.data.map (fun c => if c = old then new else String.singleton c))

/-- The struct `MarkdownRenderer`. -/
structure MarkdownRenderer where
  showIDs : Bool
  deriving DecidableEq, Repr

/-- The condition `len(result.Tokens) > 0 && result.Tokens[0].ID >= 0`. -/
def firstTokenHasID (result : TokenizationResult) : Bool :=
  match result.Tokens with
  | [] => false
  | token :: _ => decide (token.ID ≥ 0)

/-- The table row written for the token at position `i` (both renderers of a table share
this loop body). -/
def MarkdownRenderer.tableRow (r : MarkdownRenderer) (i : Nat) (token : Token) : String :=
  let text := replaceAllChar token.Text '|' "\\|"
  let text := replaceAllChar text '\n' "\\n"
  if r.showIDs then
    "| " ++ fmtInt ((i : Int) + 1) ++ " | `" ++ text ++ "` | " ++ fmtInt token.ID ++ " |\n"
  else
    "| " ++ fmtInt ((i : Int) + 1) ++ " | `" ++ text ++ "` | |\n"

/-- The rows of the token loop. -/
def MarkdownRenderer.tableRows (r : MarkdownRenderer) (tokens : List Token) : List String :=
  tokens.enum.map (fun p => MarkdownRenderer.tableRow r p.1 p.2)

/-- The method `MarkdownRenderer.RenderSingle`. -/
def MarkdownRenderer.RenderSingle (r : MarkdownRenderer) (result : TokenizationResult) :
    String :=
  concatStrings
    (["# " ++ result.Model ++ "\n\n",
      "**Total tokens:** " ++ fmtInt result.TotalCount ++ "\n\n"]
    ++ (if firstTokenHasID result then
          ["## Tokens\n\n", "| # | Text | ID |\n", "|---|------|----|\n"]
          ++ MarkdownRenderer.tableRows r result.Tokens
        else
          ["## Text\n\n", "```\n" ++ result.Text ++ "\n```\n"]))

/-- The writes of the second loop of `MarkdownRenderer.RenderComparison` for one result. -/
def MarkdownRenderer.resultSection (r : MarkdownRenderer) (result : TokenizationResult) :
    List String :=
  ["## " ++ result.Model ++ "\n\n"]
  ++ (if firstTokenHasID result then
        ["| # | Text | ID |\n", "|---|------|----|\n"]
        ++ MarkdownRenderer.tableRows r result.Tokens
      else
        ["**Total tokens:** " ++ fmtInt result.TotalCount ++ "\n"])
  ++ ["\n"]

/-- The method `MarkdownRenderer.RenderComparison`. -/
def MarkdownRenderer.RenderComparison (r : MarkdownRenderer)
    (results : List TokenizationResult) : String :=
  match results with
  | [] => ""
  | [result] => MarkdownRenderer.RenderSingle r result
  | _ =>
    concatStrings
      (["# Token Comparison\n\n", "## Token Counts\n\n", "| Model | Token Count |\n",
        "|-------|-------------|\n"]
      ++ results.map (fun result =>
          "| " ++ result.Model ++ " | " ++ fmtInt result.TotalCount ++ " |\n")
      ++ ["\n"]
      ++ (results.map (MarkdownRenderer.resultSection r)).flatten)

/-! ## internal/output/html.go -/

/-- The struct `HTMLInlineRenderer`. -/
structure HTMLInlineRenderer where
  showIDs : Bool
  showBoundaries : Bool
  deriving DecidableEq, Repr

/-- The palette `htmlTokenColors`. -/
def htmlTokenColors : List String :=
  ["#ff5faf", "#af87ff", "#5fffff", "#ffff87", "#87ff00", "#ff87ff", "#87d7ff", "#ffd7af"]

/-- The function `html.EscapeString` on one character. -/
def escapeHTMLChar (c : Char) : String :=
  if c = '&' then "&amp;"
  else if c = '\'' then "&#39;"
  else if c = '<' then "&lt;"
  else if c = '>' then "&gt;"
  else if c = '"' then "&#34;"
  else String.singleton c

/-- The function `escapeHTML`, that is `html.EscapeString`. -/
def escapeHTML (s : String) : String :=
  concatStrings (s.data.map escapeHTMLChar)

/-- The literal style sheet at the head of `generateCSS`, line by line. -/
def cssHead : List String :=
  [ "<style>\n",
    "body \x7b\n",
    "    font-family: 'SF Mono', 'Monaco', 'Inconsolata', 'Fira Code', 'Consolas', monospace;\n",
    "    padding: 20px;\n",
    "    background-color: #1e1e1e;\n",
    "    color: #d4d4d4;\n",
    "    line-height: 1.6;\n",
    "\x7d\n",
    ".container \x7b\n",
    "    max-width: 1200px;\n",
    "    margin: 0 auto;\n",
    "\x7d\n",
    ".model-header \x7b\n",
    "    font-size: 1.2em;\n",
    "    font-weight: bold;\n",
    "    margin-bottom: 10px;\n",
    "    color: #569cd6;\n",
    "\x7d\n",
    ".token-count \x7b\n",
    "    color: #9cdcfe;\n",
    "    margin-bottom: 15px;\n",
    "\x7d\n",
    ".tokens \x7b\n",
    "    background-color: #252526;\n",
    "    padding: 15px;\n",
    "    border-radius: 5px;\n",
    "    margin-bottom: 20px;\n",
    "    word-wrap: break-word;\n",
    "\x7d\n",
    ".token \x7b\n",
    "    font-weight: bold;\n",
    "    white-space: pre-wrap;\n",
    "\x7d\n",
    ".token-id \x7b\n",
    "    font-size: 0.8em;\n",
    "    color: #6a6a6a;\n",
    "    font-weight: normal;\n",
    "\x7d\n",
    ".boundary \x7b\n",
    "    color: #6a6a6a;\n",
    "    font-weight: normal;\n",
    "\x7d\n",
    ".comparison-container \x7b\n",
    "    display: flex;\n",
    "    gap: 20px;\n",
    "    flex-wrap: wrap;\n",
    "\x7d\n",
    ".comparison-model \x7b\n",
    "    flex: 1;\n",
    "    min-width: 300px;\n",
    "\x7d\n" ]

/-- The method `generateCSS`. -/
def HTMLInlineRenderer.generateCSS (_r : HTMLInlineRenderer) : String :=
  concatStrings
    ([concatStrings cssHead]
    ++ htmlTokenColors.enum.map (fun p =>
        ".token-" ++ fmtInt (p.1 : Int) ++ " \x7b color: " ++ p.2 ++ "; \x7d\n")
    ++ ["</style>\n"])

/-- The writes of one pass of the token loop of the HTML renderer (the loop body is the same
in `RenderSingle` and `RenderComparison`), for the token at position `i`. -/
def HTMLInlineRenderer.tokenWrites (r : HTMLInlineRenderer) (i : Nat) (token : Token) :
    List Piece :=
  (if r.showBoundaries && decide (i > 0) then
      [{ part := .boundary, text := "<span class=\"boundary\">|</span>" }]
    else [])
  ++ [{ part := .token,
        text := "<span class=\"token token-" ++ fmtInt ((i % htmlTokenColors.length : Nat) : Int)
          ++ "\">" ++ escapeHTML token.Text ++ "</span>" }]
  ++ (if r.showIDs then
        [{ part := .tokenID,
           text := "<span class=\"token-id\">[" ++ fmtInt token.ID ++ "]</span>" }]
      else [])

/-- The writes for the model header, the token count and the tokens of one result. -/
def HTMLInlineRenderer.resultWrites (r : HTMLInlineRenderer) (result : TokenizationResult) :
    List Piece :=
  [{ part := .header,
     text := "<div class=\"model-header\">" ++ escapeHTML result.Model ++ "</div>\n" },
   { part := .stats,
     text := "<div class=\"token-count\">Total tokens: " ++ fmtInt result.TotalCount
       ++ "</div>\n" },
   { part := .markup, text := "<div class=\"tokens\">\n" }]
  ++ (result.Tokens.enum.map (fun p => HTMLInlineRenderer.tokenWrites r p.1 p.2)).flatten
  ++ [{ part := .markup, text := "\n</div>\n" }]

/-- The writes of `HTMLInlineRenderer.RenderSingle`, in order. -/
def HTMLInlineRenderer.RenderSingleWrites (r : HTMLInlineRenderer)
    (result : TokenizationResult) : List Piece :=
  [{ part := .markup, text := "<!DOCTYPE html>\n<html>\n<head>\n" },
   { part := .markup, text := "<meta charset=\"UTF-8\">\n" },
   { part := .markup,
     text := "<meta name=\"viewport\" content=\"width=device-width, initial-scale=1.0\">\n" },
   { part := .markup, text := "<title>Token Visualization</title>\n" },
   { part := .markup, text := r.generateCSS },
   { part := .markup, text := "</head>\n<body>\n<div class=\"container\">\n" }]
  ++ HTMLInlineRenderer.resultWrites r result
  ++ [{ part := .markup, text := "</div>\n</body>\n</html>\n" }]

/-- The method `HTMLInlineRenderer.RenderSingle`. -/
def HTMLInlineRenderer.RenderSingle (r : HTMLInlineRenderer) (result : TokenizationResult) :
    String :=
  output (HTMLInlineRenderer.RenderSingleWrites r result)

/-- The writes of `HTMLInlineRenderer.RenderComparison`, in order. -/
def HTMLInlineRenderer.RenderComparisonWrites (r : HTMLInlineRenderer)
    (results : List TokenizationResult) : List Piece :=
  [{ part := .markup, text := "<!DOCTYPE html>\n<html>\n<head>\n" },
   { part := .markup, text := "<meta charset=\"UTF-8\">\n" },
   { part := .markup,
     text := "<meta name=\"viewport\" content=\"width=device-width, initial-scale=1.0\">\n" },
   { part := .markup, text := "<title>Token Comparison</title>\n" },
   { part := .markup, text := r.generateCSS },
   { part := .markup, text := "</head>\n<body>\n<div class=\"container\">\n" },
   { part := .markup, text := "<div class=\"comparison-container\">\n" }]
  ++ (results.map (fun result =>
        [{ part := .markup, text := "<div class=\"comparison-model\">\n" }]
        ++ HTMLInlineRenderer.resultWrites r result
        ++ [{ part := .markup, text := "</div>\n" }])).flatten
  ++ [{ part := .markup, text := "</div>\n" },
      { part := .markup, text := "</div>\n</body>\n</html>\n" }]

/-- The method `HTMLInlineRenderer.RenderComparison`. -/
def HTMLInlineRenderer.RenderComparison (r : HTMLInlineRenderer)
    (results : List TokenizationResult) : String :=
  output (HTMLInlineRenderer.RenderComparisonWrites r results)

/-- The boundary markers of a comparison column: the boundary pieces among the strings that
`renderColumn` styles for its tokens, in order. -/
def TerminalRenderer.columnBoundaryMarkers (r : TerminalRenderer)
    (result : TokenizationResult) : List Piece :=
  ((result.Tokens.map (TerminalRenderer.columnTokenParts r)).flatten).filter
    (fun p => decide (p.part = .boundary))

/-! ## Offsets and reconstruction, in the words of the specification -/

/-- The bytes of a Go string (its UTF-8 encoding). -/
def goBytes (s : String) : List UInt8 :=
  (s.data.map String.utf8EncodeChar).flatten

/-- The slice expression `s[a:b]` on a Go string: the bytes from offset `a` up to `b`, `none`
when the bounds are out of range (a run-time panic). -/
def byteSlice (s : String) (a b : Int) : Option (List UInt8) :=
  if 0 ≤ a ∧ a ≤ b ∧ b ≤ strLen s then
    some (((goBytes s).drop a.toNat).take (b.toNat - a.toNat))
  else none

/-- Tokens laid end to end from the offset `pos`: each starts where the one before ends and
spans the byte length of its text. -/
def laidOut (pos : Int) : List Token → Prop
  | [] => True
  | t :: rest => t.Start = pos ∧ t.End = pos + strLen t.Text ∧ laidOut t.End rest

/-- The summed byte length of the texts of `tokens`. -/
def totalLen (tokens : List Token) : Int :=
  (tokens.map (fun t => strLen t.Text)).sum

/-- Offset accumulation, index by index: the first token starts at 0, every token ends its
byte length after its start, every token starts where the one before ends, the start of a token
is the summed byte length of the tokens before it, and starts never decrease. -/
def OffsetsAccumulate (tokens : List Token) : Prop :=
  (∀ t, tokens.get? 0 = some t → t.Start = 0) ∧
  (∀ i t, tokens.get? i = some t → t.End = t.Start + strLen t.Text) ∧
  (∀ i t u, tokens.get? i = some t → tokens.get? (i + 1) = some u → u.Start = t.End) ∧
  (∀ i t, tokens.get? i = some t → t.Start = totalLen (tokens.take i)) ∧
  (∀ i j t u, i ≤ j → tokens.get? i = some t → tokens.get? j = some u → t.Start ≤ u.Start)

/-- Exact reconstruction of `text` by `tokens`: the token texts concatenate to the text, the
last token ends at the byte length of the text, and the byte slice of the text between the
offsets of a token is the text of that token. -/
def Reconstructs (tokens : List Token) (text : String) : Prop :=
  concatStrings (tokens.map (fun t => t.Text)) = text ∧
  (∀ t, tokens.getLast? = some t → t.End = strLen text) ∧
  (∀ i t, tokens.get? i = some t → byteSlice text t.Start t.End = some (goBytes t.Text))

/-! ## Counting boundary spans in the HTML output -/

/-- The opening tag of a boundary span. -/
def boundaryTag : String := "<span class=\"boundary\">"

/-- The number of positions of a text at which `pat` occurs. -/
def occurrences (pat : List Char) : List Char → Nat
  | [] => 0
  | c :: cs => (if pat.isPrefixOf (c :: cs) then 1 else 0) + occurrences pat cs

/-- The text differs from `pat` at a position both have, so `pat` does not occur at its
start whatever follows. -/
def conflicts : List Char → List Char → Bool
  | p :: ps, c :: cs => p != c || conflicts ps cs
  | _, _ => false

/-- No occurrence of `pat` starts inside the text, whatever follows it. -/
def tagFree (pat : List Char) : List Char → Bool
  | [] => true
  | c :: cs => conflicts pat (c :: cs) && tagFree pat cs

/-- The text adds `k` occurrences of the boundary tag to those of whatever follows it. -/
def addsTags (k : Nat) (t : List Char) : Prop :=
  ∀ rest, occurrences boundaryTag.data (t ++ rest) = k + occurrences boundaryTag.data rest

/-- The number of boundary tags a write adds: one for a boundary piece, none otherwise. -/
def tagsOf (p : Piece) : Nat := if p.part = .boundary then 1 else 0

/-! ## Well-formed table cells -/

/-- Every `|` of the text is directly preceded by a backslash; `escaped` tells whether the
character before the text is a backslash. -/
def pipesEscapedFrom (escaped : Bool) : List Char → Bool
  | [] => true
  | c :: cs => (c != '|' || escaped) && pipesEscapedFrom (c == '\\') cs

/-- Every `|` of the text is directly preceded by a backslash. -/
def pipesEscaped (cs : List Char) : Bool := pipesEscapedFrom false cs

/-- The text is one line: it ends with a newline and has no other newline. -/
def IsLine (s : String) : Prop := ∃ body, s.data = body ++ ['\n'] ∧ '\n' ∉ body

/-- What the two `strings.ReplaceAll` calls of the table loop make of one character. -/
def cellChar (c : Char) : List Char :=
  if c = '|' then ['\\', '|'] else if c = '\n' then ['\\', 'n'] else [c]

/-! ## Sample collaborators, used to instantiate the properties -/

/-- A transport that answers every request with status 200 and the body `seven`, decoded
to the count 7; fingerprints are the keys themselves. -/
def sampleRemote : Remote :=
  { sha256Hex := id,
    client := fun _ _ => .response 200 "seven",
    decodeInputTokens := fun body => if body = "seven" then some 7 else none }

/-- A remote adapter with caching enabled in the directory `d`. -/
def sampleClaude : ClaudeTokenizer :=
  { model := "m", apiKey := "key", cache := some { dir := "d" } }

/-- A state where the cache directory `d` exists and is empty and nothing was sent. -/
def sampleWorld : World :=
  { fs := { dirs := ["d"], files := [] }, sent := [] }

/-- An engine result with two tokens and their native offsets. -/
def sampleEncoding : Encoding :=
  { ids := [15, 16], tokens := ["ab", "c"], offsets := [[0, 2], [2, 3]] }

/-- A tokenizer-file adapter whose engine returns `sampleEncoding` for every text. -/
def sampleLLaMA3 : LLaMA3Tokenizer :=
  { tokenizer := fun _ => some sampleEncoding, modelName := "llama3" }

/-- A lipgloss that applies no styling: `Render` returns the text and `JoinHorizontal` the
concatenation of the blocks. -/
def plainLipgloss : Lipgloss :=
  { Render := fun _ s => s, JoinHorizontalTop := concatStrings }

/-- The result the remote adapter returns for the text `hi` counted as 7. -/
def sentinelResult : TokenizationResult :=
  { Tokens := [{ Text := "hi", ID := -1, Start := 0, End := 2 }], TotalCount := 7,
    Text := "hi", Model := "m" }

/-- A result with one token that has an ID. -/
def oneTokenResult : TokenizationResult :=
  { Tokens := [{ Text := "ab", ID := 5, Start := 0, End := 2 }], TotalCount := 1,
    Text := "ab", Model := "m" }

/-- A result whose first token has an ID and whose second carries the sentinel. -/
def mixedResult : TokenizationResult :=
  { Tokens := [{ Text := "a", ID := 5, Start := 0, End := 1 },
               { Text := "b", ID := -1, Start := 1, End := 2 }],
    TotalCount := 2, Text := "ab", Model := "m" }

/-- The sample adapter with caching disabled (`cache` nil). -/
def sampleClaudeNoCache : ClaudeTokenizer :=
  { model := "m", apiKey := "key", cache := none }

/-- A transport that answers every request with status 201 and the body `seven`, which
decodes to the count 7. -/
def sampleRemote201 : Remote :=
  { sha256Hex := id,
    client := fun _ _ => .response 201 "seven",
    decodeInputTokens := fun body => if body = "seven" then some 7 else none }

/-- A state where the cache directory `d` does not exist. -/
def sampleWorldNoDir : World :=
  { fs := { dirs := [], files := [] }, sent := [] }

/-- A byte-pair engine that splits every text into the ids 1 and 2, decoded as `ab` and
`c`. -/
def sampleTik : TikTokenizer :=
  { encoding := "sample",
    encoder := { Encode := fun _ => [1, 2],
                 Decode := fun ids => if ids = [1] then "ab" else if ids = [2] then "c" else "" } }

/-- A sentencepiece engine with the same vocabulary as `sampleTik`. -/
def sampleLLaMA : LLaMATokenizer :=
  { modelPath := "tokenizer.model",
    model := { Encode := fun _ => [1, 2],
               Decode := fun ids => if ids = [1] then "ab" else if ids = [2] then "c" else "" } }

/-- A result whose token texts contain a pipe and a newline. -/
def pipeResult : TokenizationResult :=
  { Tokens := [{ Text := "a|b", ID := 5, Start := 0, End := 3 },
               { Text := "c\n", ID := 6, Start := 3, End := 5 }],
    TotalCount := 2, Text := "a|bc\n", Model := "m" }
/-! # Properties -/

/-! ## Decimal rendering and JSON decoding of an `int` -/

theorem digitChar_toNat (d : Nat) (h : d < 10) : (digitChar d).toNat - 48 = d := by
  interval_cases d <;> decide

theorem digitChar_isDecDigit (d : Nat) (h : d < 10) : isDecDigit (digitChar d) = true := by
  interval_cases d <;> decide

theorem digitChar_ne_minus (d : Nat) (h : d < 10) : digitChar d ≠ '-' := by
  interval_cases d <;> decide

theorem digitChar_eq_zero (d : Nat) (h : d < 10) (h0 : digitChar d = '0') : d = 0 := by
  interval_cases d <;> first | rfl | (exfalso; revert h0; decide)

theorem decimalDigitsRev_lt (fuel n : Nat) : ∀ d ∈ decimalDigitsRev fuel n, d < 10 := by
  induction fuel generalizing n with
  | zero => intro d hd; simp [decimalDigitsRev] at hd
  | succ f ih =>
    intro d hd
    unfold decimalDigitsRev at hd
    split at hd
    · simp at hd; omega
    · rcases List.mem_cons.mp hd with h | h
      · omega
      · exact ih _ d h

theorem digitsValue_snoc (cs : List Char) (c : Char) :
    digitsValue (cs ++ [c]) = 10 * digitsValue cs + (c.toNat - 48) := by
  simp [digitsValue, List.foldl_append]

theorem digitsValue_decimal (fuel n : Nat) (h : n < fuel) :
    digitsValue ((decimalDigitsRev fuel n).reverse.map digitChar) = n := by
  induction fuel generalizing n with
  | zero => omega
  | succ f ih =>
    unfold decimalDigitsRev
    split
    · rename_i hn
      simp [digitsValue, digitChar_toNat n hn]
    · rename_i hn
      simp only [List.reverse_cons, List.map_append, List.map_cons, List.map_nil]
      rw [digitsValue_snoc, ih (n / 10) (by omega), digitChar_toNat _ (Nat.mod_lt _ (by omega))]
      omega

theorem decimal_head (fuel n : Nat) (h : n < fuel) :
    ∃ d rest, (decimalDigitsRev fuel n).reverse.map digitChar = digitChar d :: rest ∧ d < 10 ∧
      (d = 0 → n = 0 ∧ rest = []) := by
  induction fuel generalizing n with
  | zero => omega
  | succ f ih =>
    unfold decimalDigitsRev
    split
    · rename_i hn
      exact ⟨n, [], by simp, hn, fun h0 => ⟨h0, rfl⟩⟩
    · rename_i hn
      obtain ⟨d, rest, he, hd, hz⟩ := ih (n / 10) (by omega)
      refine ⟨d, rest ++ [digitChar (n % 10)], ?_, hd, ?_⟩
      · simp only [List.reverse_cons, List.map_append, List.map_cons, List.map_nil, he,
          List.cons_append]
      · intro h0
        have := (hz h0).1
        omega

theorem natToDecimal_all_digits (n : Nat) : ∀ c ∈ natToDecimal n, isDecDigit c = true := by
  intro c hc
  unfold natToDecimal at hc
  obtain ⟨d, hd, rfl⟩ := List.mem_map.mp hc
  exact digitChar_isDecDigit d (decimalDigitsRev_lt _ _ d (List.mem_reverse.mp hd))

theorem parseJSONNat_natToDecimal (n : Nat) : parseJSONNat (natToDecimal n) = some n := by
  obtain ⟨d, rest, he, hd, hz⟩ := decimal_head (n + 1) n (by omega)
  have hall := natToDecimal_all_digits n
  have hval : digitsValue (natToDecimal n) = n := digitsValue_decimal (n + 1) n (by omega)
  unfold natToDecimal at hall hval ⊢
  rw [he] at hall hval ⊢
  have hall2 : (digitChar d :: rest).all isDecDigit = true := List.all_eq_true.mpr hall
  unfold parseJSONNat
  split
  · rename_i heq; simp at heq
  · rename_i c1 c2 heq
    simp only [List.cons.injEq] at heq
    have h0 := digitChar_eq_zero d hd heq.1
    have := (hz h0).2
    rw [this] at heq
    simp at heq
  · rename_i c rest2 hne heq
    rw [← heq, if_pos hall2, hval]

theorem natToDecimal_head (n : Nat) :
    ∃ d rest, natToDecimal n = digitChar d :: rest ∧ d < 10 := by
  obtain ⟨d, rest, he, hd, _⟩ := decimal_head (n + 1) n (by omega)
  exact ⟨d, rest, he, hd⟩

theorem parseJSONInt_intToDecimal (v : Int) : parseJSONInt (intToDecimal v) = some v := by
  cases v with
  | ofNat n =>
    obtain ⟨d, rest, he, hd⟩ := natToDecimal_head n
    have hp := parseJSONNat_natToDecimal n
    simp only [intToDecimal]
    rw [he] at hp ⊢
    unfold parseJSONInt
    split
    · rename_i heq
      simp only [List.cons.injEq] at heq
      exact absurd heq.1 (digitChar_ne_minus d hd)
    · rw [hp]; rfl
  | negSucc n =>
    simp only [intToDecimal, parseJSONInt, parseJSONNat_natToDecimal, Option.map_some']
    rfl

theorem dropWhile_eq_self {p : Char → Bool} (l : List Char) (h : ∀ c ∈ l, p c = false) :
    l.dropWhile p = l := by
  cases l with
  | nil => rfl
  | cons a t => simp [List.dropWhile, h a (List.mem_cons_self a t)]

theorem trimJSONSpace_eq_self (l : List Char) (h : ∀ c ∈ l, isJSONSpace c = false) :
    trimJSONSpace l = l := by
  unfold trimJSONSpace
  rw [dropWhile_eq_self l h, dropWhile_eq_self l.reverse (fun c hc => h c (List.mem_reverse.mp hc)),
    List.reverse_reverse]

theorem intToDecimal_chars (v : Int) : ∀ c ∈ intToDecimal v, isDecDigit c = true ∨ c = '-' := by
  intro c hc
  cases v with
  | ofNat n => exact Or.inl (natToDecimal_all_digits n c hc)
  | negSucc n =>
    simp only [intToDecimal] at hc
    rcases List.mem_cons.mp hc with h | h
    · exact Or.inr h
    · exact Or.inl (natToDecimal_all_digits _ c h)

theorem isDecDigit_not_space (c : Char) (h : isDecDigit c = true) : isJSONSpace c = false := by
  simp only [isDecDigit, Bool.and_eq_true, decide_eq_true_eq] at h
  simp only [isJSONSpace, Bool.or_eq_false_iff, decide_eq_false_iff_not]
  refine ⟨⟨⟨?_, ?_⟩, ?_⟩, ?_⟩ <;> (rintro rfl; revert h; decide)

theorem jsonUnmarshalInt_jsonMarshalInt (v old : Int) (hv : IsGoInt v) :
    jsonUnmarshalInt (jsonMarshalInt v) old = some v := by
  have hch := intToDecimal_chars v
  have htrim : trimJSONSpace (intToDecimal v) = intToDecimal v := by
    apply trimJSONSpace_eq_self
    intro c hc
    rcases hch c hc with h | h
    · exact isDecDigit_not_space c h
    · rw [h]; decide
  have hnull : intToDecimal v ≠ ['n', 'u', 'l', 'l'] := by
    intro he
    have := hch 'n' (by rw [he]; simp)
    revert this; decide
  unfold jsonUnmarshalInt jsonMarshalInt
  simp only [htrim, if_neg hnull, parseJSONInt_intToDecimal, if_pos hv]

/-! ## Cache store -/

theorem lookupFile_filter_none (p : Path) (q : Path × String → Bool) (l : List (Path × String))
    (h : lookupFile p l = none) : lookupFile p (l.filter q) = none := by
  induction l with
  | nil => rfl
  | cons e t ih =>
    obtain ⟨a, d⟩ := e
    simp only [lookupFile] at h
    split at h
    · simp at h
    · rename_i hne
      simp only [List.filter]
      split
      · simp only [lookupFile, if_neg hne]; exact ih h
      · exact ih h

theorem lookupFile_none_of_dir (p : Path) (l : List (Path × String))
    (h : ∀ e ∈ l, e.1.dir ≠ p.dir) : lookupFile p l = none := by
  induction l with
  | nil => rfl
  | cons e t ih =>
    obtain ⟨a, d⟩ := e
    have ha : a ≠ p := fun he => h (a, d) (List.mem_cons_self _ _) (by rw [he])
    simp only [lookupFile, if_neg ha]
    exact ih (fun e he => h e (List.mem_cons_of_mem _ he))

theorem string_append_right_cancel (a b s : String) (h : a ++ s = b ++ s) : a = b := by
  have h2 := congrArg String.data h
  simp only [String.data_append] at h2
  exact String.ext (List.append_cancel_right h2)

theorem keyToPath_ne (H : String → String) (c : Cache) (a b : String) (h : H a ≠ H b) :
    c.keyToPath H a ≠ c.keyToPath H b := by
  intro he
  simp only [Cache.keyToPath, Path.mk.injEq, true_and] at he
  exact h (string_append_right_cancel _ _ _ he)

theorem Set_ok (H : String → String) (c : Cache) (fs : FS) (k : String) (v : Int)
    (hdir : c.dir ∈ fs.dirs) :
    c.Set H fs k v = .ok { fs with files := ((c.keyToPath H k, jsonMarshalInt v) ::
      fs.files.filter (fun e => decide (e.1 ≠ c.keyToPath H k))) } := by
  have hd : (c.keyToPath H k).dir ∈ fs.dirs := hdir
  simp only [Cache.Set, FS.writeFile, if_pos hd]

theorem Get_after_Set (H : String → String) (c : Cache) (fs : FS) (k : String) (v old : Int)
    (hdir : c.dir ∈ fs.dirs) (hv : IsGoInt v) :
    ∃ fs1, c.Set H fs k v = .ok fs1 ∧ fs1.dirs = fs.dirs ∧ c.Get H fs1 k old = .ok v := by
  refine ⟨_, Set_ok H c fs k v hdir, rfl, ?_⟩
  have hd : (c.keyToPath H k).dir ∈ fs.dirs := hdir
  simp only [Cache.Get, FS.readFile, if_pos hd, lookupFile, if_true,
    jsonUnmarshalInt_jsonMarshalInt v old hv]

theorem Get_miss_of_lookup (H : String → String) (c : Cache) (fs : FS) (k : String) (old : Int)
    (h : lookupFile (c.keyToPath H k) fs.files = none) :
    c.Get H fs k old = .error .cacheMiss := by
  by_cases hd : (c.keyToPath H k).dir ∈ fs.dirs
  · simp only [Cache.Get, FS.readFile, h, if_pos hd]
  · simp only [Cache.Get, FS.readFile, if_neg hd]

theorem lookupFile_setAll (H : String → String) (c : Cache) (k : String)
    (ops : List (String × Int)) :
    ∀ fs : FS, lookupFile (c.keyToPath H k) fs.files = none →
      (∀ e ∈ ops, H e.1 ≠ H k) →
      lookupFile (c.keyToPath H k) (c.setAll H fs ops).files = none := by
  induction ops with
  | nil => intro fs h _; exact h
  | cons e t ih =>
    intro fs h hk
    obtain ⟨a, v⟩ := e
    have ha : H a ≠ H k := hk (a, v) (List.mem_cons_self _ _)
    have ht : ∀ e ∈ t, H e.1 ≠ H k := fun e he => hk e (List.mem_cons_of_mem _ he)
    simp only [Cache.setAll]
    by_cases hdir : c.dir ∈ fs.dirs
    · rw [Set_ok H c fs a v hdir]
      apply ih _ _ ht
      simp only [lookupFile, if_neg (keyToPath_ne H c a k ha)]
      exact lookupFile_filter_none _ _ _ h
    · have hd : ¬ (c.keyToPath H a).dir ∈ fs.dirs := hdir
      simp only [Cache.Set, FS.writeFile, if_neg hd]
      exact ih fs h ht

theorem setAll_dirs (H : String → String) (c : Cache) (l : List (String × Int)) :
    ∀ g : FS, (c.setAll H g l).dirs = g.dirs := by
  induction l with
  | nil => intro g; rfl
  | cons e t ih =>
    intro g
    obtain ⟨a, w⟩ := e
    by_cases hd : c.dir ∈ g.dirs
    · simp only [Cache.setAll, Set_ok H c g a w hd, ih]
    · have hd2 : ¬ (c.keyToPath H a).dir ∈ g.dirs := hd
      simp only [Cache.setAll, Cache.Set, FS.writeFile, if_neg hd2, ih]

theorem mkdirAll_ok (fs : FS) (d : String) : ∃ fs1, fs.mkdirAll d = .ok fs1 ∧ d ∈ fs1.dirs := by
  unfold FS.mkdirAll
  by_cases h : d ∈ fs.dirs
  · exact ⟨fs, by simp [h], h⟩
  · exact ⟨{ fs with dirs := d :: fs.dirs }, by simp [h], List.mem_cons_self _ _⟩

theorem NewCache_dir (home : Option String) (fs fs1 : FS) (dir : String) (c : Cache)
    (h : NewCache home fs dir = .ok (c, fs1)) : c.dir ∈ fs1.dirs := by
  unfold NewCache at h
  by_cases hd : dir = ""
  · cases home with
    | none => simp [hd] at h
    | some hm =>
      obtain ⟨fs2, h2, hmem⟩ := mkdirAll_ok fs (hm ++ "/.cache/token-visualizer")
      simp only [hd, if_true, h2, Except.ok.injEq, Prod.mk.injEq] at h
      rw [← h.1, ← h.2]; exact hmem
  · obtain ⟨fs2, h2, hmem⟩ := mkdirAll_ok fs dir
    simp only [hd, if_false, h2, Except.ok.injEq, Prod.mk.injEq] at h
    rw [← h.1, ← h.2]; exact hmem

/-- C1. Cache round trip. `NewCache` leaves the cache directory in existence. In a file
system where the cache directory exists, `Set(k, v)` succeeds for every key and every `int`
value and the `Get(k)` that follows returns `v` without error. Starting from an empty cache
directory, after any sequence of `Set` calls, `Get(k)` for a key that was never set (its
fingerprint colliding with none of the keys that were) returns the "cache miss" error and no
value. -/
theorem cache_round_trip (H : String → String) (c : Cache) :
    (∀ (home : Option String) (fs fs1 : FS) (dir : String) (c1 : Cache),
      NewCache home fs dir = .ok (c1, fs1) → c1.dir ∈ fs1.dirs) ∧
    (∀ (fs : FS) (k : String) (v old : Int), c.dir ∈ fs.dirs → IsGoInt v →
      ∃ fs1, c.Set H fs k v = .ok fs1 ∧ c.Get H fs1 k old = .ok v) ∧
    (∀ (fs : FS) (ops : List (String × Int)) (k : String) (old : Int),
      (∀ e ∈ fs.files, e.1.dir ≠ c.dir) → (∀ e ∈ ops, e.1 ≠ k) →
      (∀ e ∈ ops, e.1 ≠ k → H e.1 ≠ H k) →
      c.Get H (c.setAll H fs ops) k old = .error .cacheMiss) := by
  refine ⟨fun home fs fs1 dir c1 h => NewCache_dir home fs fs1 dir c1 h, ?_, ?_⟩
  · intro fs k v old hdir hv
    obtain ⟨fs1, h1, _, h2⟩ := Get_after_Set H c fs k v old hdir hv
    exact ⟨fs1, h1, h2⟩
  · intro fs ops k old hempty hnever hcoll
    apply Get_miss_of_lookup
    apply lookupFile_setAll
    · exact lookupFile_none_of_dir _ _ hempty
    · exact fun e he => hcoll e he (hnever e he)

/-- Witness of C1: a cache in directory `d` with identity fingerprints; `Set("a", 5)` then
`Get("a")` gives 5, and after `Set("a", 5)` the key `b` misses. -/
theorem cache_round_trip_witness :
    (∃ fs1, Cache.Set id { dir := "d" } { dirs := ["d"], files := [] } "a" 5 = .ok fs1 ∧
      Cache.Get id { dir := "d" } fs1 "a" 0 = .ok 5) ∧
    Cache.Get id { dir := "d" }
      (Cache.setAll id { dir := "d" } { dirs := ["d"], files := [] } [("a", 5)]) "b" 0
      = .error .cacheMiss :=
  ⟨(cache_round_trip id { dir := "d" }).2.1 { dirs := ["d"], files := [] } "a" 5 0
      (by decide) (by decide),
   (cache_round_trip id { dir := "d" }).2.2 { dirs := ["d"], files := [] } [("a", 5)] "b" 0
      (by simp) (by decide) (by decide)⟩

/-! ## Remote adapter -/

theorem cached_none_of_error (env : Remote) (tk : ClaudeTokenizer) (ca : Cache) (w : World)
    (text : String) (e : CacheError) (hcache : tk.cache = some ca)
    (h : ca.Get env.sha256Hex w.fs (tk.cacheKey text) 0 = .error e) :
    tk.cached env w text = none := by
  simp only [ClaudeTokenizer.cached, hcache, h]

theorem cached_some_of_ok (env : Remote) (tk : ClaudeTokenizer) (ca : Cache) (w : World)
    (text : String) (n : Int) (hcache : tk.cache = some ca)
    (h : ca.Get env.sha256Hex w.fs (tk.cacheKey text) 0 = .ok n) :
    tk.cached env w text = some n := by
  simp only [ClaudeTokenizer.cached, hcache, h]

/-- C2. The cache short-circuits the transport. With caching enabled, the cache directory in
existence and no entry for the key, when the transport answers the request with status 200 and
a payload that decodes to `n`, two consecutive `CountTokens(text)` calls both return `n`, the
first hands exactly one request to the transport and the second none. -/
theorem cache_short_circuits_transport (env : Remote) (tk : ClaudeTokenizer) (ca : Cache)
    (w : World) (text body : String) (n : Int)
    (hcache : tk.cache = some ca) (hdir : ca.dir ∈ w.fs.dirs)
    (hmiss : ca.Get env.sha256Hex w.fs (tk.cacheKey text) 0 = .error .cacheMiss)
    (hresp : env.client w.sent (tk.request text) = .response 200 body)
    (hdec : env.decodeInputTokens body = some n) (hn : IsGoInt n) :
    (tk.CountTokens env w text).1 = .ok n ∧
    (tk.CountTokens env w text).2.sent = w.sent ++ [tk.request text] ∧
    (tk.CountTokens env (tk.CountTokens env w text).2 text).1 = .ok n ∧
    (tk.CountTokens env (tk.CountTokens env w text).2 text).2.sent
      = w.sent ++ [tk.request text] := by
  obtain ⟨fs1, hset, _, hget⟩ :=
    Get_after_Set env.sha256Hex ca w.fs (tk.cacheKey text) n 0 hdir hn
  have h1 : tk.CountTokens env w text
      = (.ok n, { fs := fs1, sent := w.sent ++ [tk.request text] }) := by
    simp only [ClaudeTokenizer.CountTokens, cached_none_of_error env tk ca w text _ hcache hmiss,
      hresp, hdec, hcache, hset, ne_eq, not_true_eq_false, if_false]
  have h2 : tk.CountTokens env { fs := fs1, sent := w.sent ++ [tk.request text] } text
      = (.ok n, { fs := fs1, sent := w.sent ++ [tk.request text] }) := by
    simp only [ClaudeTokenizer.CountTokens,
      cached_some_of_ok env tk ca { fs := fs1, sent := w.sent ++ [tk.request text] } text n
        hcache hget]
  rw [h1]
  simp only [h2, and_self]

/-- Witness of C2: the sample adapter asked twice for the text `hi`. -/
theorem cache_short_circuits_transport_witness :
    (sampleClaude.CountTokens sampleRemote sampleWorld "hi").1 = .ok 7 ∧
    (sampleClaude.CountTokens sampleRemote sampleWorld "hi").2.sent
      = [] ++ [sampleClaude.request "hi"] ∧
    (sampleClaude.CountTokens sampleRemote
      (sampleClaude.CountTokens sampleRemote sampleWorld "hi").2 "hi").1 = .ok 7 ∧
    (sampleClaude.CountTokens sampleRemote
      (sampleClaude.CountTokens sampleRemote sampleWorld "hi").2 "hi").2.sent
      = [] ++ [sampleClaude.request "hi"] :=
  cache_short_circuits_transport sampleRemote sampleClaude { dir := "d" } sampleWorld "hi"
    "seven" 7 rfl (by decide) rfl rfl rfl (by decide)

/-! ## Local adapters -/

theorem tik_foldl_length (t : TikTokenizer) (ids : List Int) :
    ∀ st : List Token × Int, (ids.foldl t.step st).1.length = st.1.length + ids.length := by
  induction ids with
  | nil => intro st; simp
  | cons id rest ih =>
    intro st
    simp only [List.foldl_cons, ih, TikTokenizer.step, List.length_append, List.length_cons,
      List.length_nil]
    omega

theorem llama_foldl_length (l : LLaMATokenizer) (ids : List Nat) :
    ∀ st : List Token × Int, (ids.foldl l.step st).1.length = st.1.length + ids.length := by
  induction ids with
  | nil => intro st; simp
  | cons id rest ih =>
    intro st
    simp only [List.foldl_cons, ih, LLaMATokenizer.step, List.length_append, List.length_cons,
      List.length_nil]
    omega

theorem tokenAt_some (enc : Encoding) (i : Nat) (hi : i < enc.ids.length)
    (ht : enc.ids.length ≤ enc.tokens.length) (ho : enc.ids.length ≤ enc.offsets.length)
    (hp : ∀ o ∈ enc.offsets, 2 ≤ o.length) :
    ∃ tok, LLaMA3Tokenizer.tokenAt enc i = some tok := by
  have h1 : i < enc.tokens.length := by omega
  have h2 : i < enc.offsets.length := by omega
  have h3 : 2 ≤ (enc.offsets.get ⟨i, h2⟩).length := hp _ (List.get_mem _ _ _)
  have h4 : 0 < (enc.offsets.get ⟨i, h2⟩).length := by omega
  have h5 : 1 < (enc.offsets.get ⟨i, h2⟩).length := by omega
  simp only [LLaMA3Tokenizer.tokenAt, List.get?_eq_get hi, List.get?_eq_get h1,
    List.get?_eq_get h2, List.get?_eq_get h4, List.get?_eq_get h5]
  exact ⟨_, rfl⟩

theorem collect_some (enc : Encoding)
    (ht : enc.ids.length ≤ enc.tokens.length) (ho : enc.ids.length ≤ enc.offsets.length)
    (hp : ∀ o ∈ enc.offsets, 2 ≤ o.length) (is : List Nat) (his : ∀ i ∈ is, i < enc.ids.length) :
    ∃ toks, LLaMA3Tokenizer.collect enc is = some toks ∧ toks.length = is.length := by
  induction is with
  | nil => exact ⟨[], rfl, rfl⟩
  | cons i rest ih =>
    obtain ⟨tok, htok⟩ := tokenAt_some enc i (his i (List.mem_cons_self _ _)) ht ho hp
    obtain ⟨toks, htoks, hlen⟩ := ih (fun j hj => his j (List.mem_cons_of_mem _ hj))
    exact ⟨tok :: toks, by simp only [LLaMA3Tokenizer.collect, htok, htoks], by simp [hlen]⟩

theorem collect_length (enc : Encoding) (is : List Nat) :
    ∀ toks, LLaMA3Tokenizer.collect enc is = some toks → toks.length = is.length := by
  induction is with
  | nil => intro toks h; simp only [LLaMA3Tokenizer.collect, Option.some.injEq] at h; simp [← h]
  | cons i rest ih =>
    intro toks h
    simp only [LLaMA3Tokenizer.collect] at h
    split at h
    · simp at h
    · split at h
      · simp at h
      · rename_i toks2 h2
        simp only [Option.some.injEq] at h
        rw [← h, List.length_cons, ih toks2 h2, List.length_cons]

theorem claude_Encode_ok (env : Remote) (c : ClaudeTokenizer) (w w1 : World) (text : String)
    (n : Int) (h : c.CountTokens env w text = (.ok n, w1)) :
    c.Encode env w text =
      (.ok { Tokens := [{ Text := text, ID := -1, Start := 0, End := strLen text }],
             TotalCount := n, Text := text, Model := c.model }, w1) := by
  simp only [ClaudeTokenizer.Encode, h]

theorem claude_Encode_error (env : Remote) (c : ClaudeTokenizer) (w w1 : World) (text : String)
    (e : TokenizerError) (h : c.CountTokens env w text = (.error e, w1)) :
    c.Encode env w text = (.error e, w1) := by
  simp only [ClaudeTokenizer.Encode, h]

/-- C3. Count agreement. For the byte-pair and the sentencepiece adapter, `Encode` succeeds on
every text and `CountTokens` returns the length of its `Tokens`, which is its `TotalCount`. For
the tokenizer-file adapter: when the engine fails both calls return an error; whenever `Encode`
returns a result, `CountTokens` returns the length of its `Tokens`, which is its `TotalCount`;
and `Encode` does return a result when the engine hands back at least as many token strings and
offset pairs as ids. For the remote adapter a successful `Encode` has exactly one token and its
`TotalCount` is the value `CountTokens` returns for that call. -/
theorem count_agreement :
    (∀ (t : TikTokenizer) (text : String), ∃ r, t.Encode text = .ok r ∧
      t.CountTokens text = .ok (r.Tokens.length : Int) ∧ r.TotalCount = (r.Tokens.length : Int)) ∧
    (∀ (l : LLaMATokenizer) (text : String), ∃ r, l.Encode text = .ok r ∧
      l.CountTokens text = .ok (r.Tokens.length : Int) ∧ r.TotalCount = (r.Tokens.length : Int)) ∧
    (∀ (t : LLaMA3Tokenizer) (text : String),
      (t.tokenizer text = none →
        t.Encode text = .done (.error .encodeText) ∧
        t.CountTokens text = .done (.error .countTokens)) ∧
      (∀ r, t.Encode text = .done (.ok r) →
        t.CountTokens text = .done (.ok (r.Tokens.length : Int)) ∧
        r.TotalCount = (r.Tokens.length : Int)) ∧
      (∀ enc, t.tokenizer text = some enc → enc.ids.length ≤ enc.tokens.length →
        enc.ids.length ≤ enc.offsets.length → (∀ o ∈ enc.offsets, 2 ≤ o.length) →
        ∃ r, t.Encode text = .done (.ok r))) ∧
    (∀ (env : Remote) (c : ClaudeTokenizer) (w w1 : World) (text : String)
      (r : TokenizationResult), c.Encode env w text = (.ok r, w1) →
        r.Tokens.length = 1 ∧ c.CountTokens env w text = (.ok r.TotalCount, w1)) := by
  refine ⟨?_, ?_, ?_, ?_⟩
  · intro t text
    refine ⟨_, rfl, ?_, ?_⟩
    · simp only [TikTokenizer.CountTokens, tik_foldl_length, List.length_nil, Nat.zero_add]
    · simp only [tik_foldl_length, List.length_nil, Nat.zero_add]
  · intro l text
    refine ⟨_, rfl, ?_, ?_⟩
    · simp only [LLaMATokenizer.CountTokens, llama_foldl_length, List.length_nil, Nat.zero_add]
    · simp only [llama_foldl_length, List.length_nil, Nat.zero_add]
  · intro t text
    refine ⟨?_, ?_, ?_⟩
    · intro h
      simp only [LLaMA3Tokenizer.Encode, LLaMA3Tokenizer.CountTokens, h, and_self]
    · intro r h
      cases henc : t.tokenizer text with
      | none => simp [LLaMA3Tokenizer.Encode, henc] at h
      | some enc =>
        cases hcol : LLaMA3Tokenizer.collect enc (List.range enc.ids.length) with
        | none => simp [LLaMA3Tokenizer.Encode, henc, hcol] at h
        | some toks =>
          have hlen := collect_length enc _ toks hcol
          simp only [LLaMA3Tokenizer.Encode, henc, hcol, Run.done.injEq, Except.ok.injEq] at h
          subst h
          simp only [LLaMA3Tokenizer.CountTokens, henc, hlen, List.length_range, and_self]
    · intro enc henc ht ho hp
      obtain ⟨toks, htoks, _⟩ := collect_some enc ht ho hp (List.range enc.ids.length)
        (fun i hi => List.mem_range.mp hi)
      simp only [LLaMA3Tokenizer.Encode, henc, htoks]
      exact ⟨_, rfl⟩
  · intro env c w w1 text r h
    cases hct : c.CountTokens env w text with
    | mk res w2 =>
      cases res with
      | error e =>
        rw [claude_Encode_error env c w w2 text e hct] at h
        simp at h
      | ok n =>
        rw [claude_Encode_ok env c w w2 text n hct] at h
        simp only [Prod.mk.injEq, Except.ok.injEq] at h
        obtain ⟨hr, hw⟩ := h
        subst hr; subst hw
        exact ⟨rfl, rfl⟩

/-- Witness of C3: the sample tokenizer-file adapter returns a result with two tokens and
the count 2, and the sample remote adapter one token with the reported count 7. -/
theorem count_agreement_witness :
    (∃ r, sampleLLaMA3.Encode "abc" = .done (.ok r)) ∧
    ((sampleLLaMA3.CountTokens "abc" = .done (.ok 2))) ∧
    (sampleClaude.CountTokens sampleRemote sampleWorld "hi").1 = .ok 7 :=
  ⟨(count_agreement.2.2.1 sampleLLaMA3 "abc").2.2 sampleEncoding rfl (by decide) (by decide)
      (by decide),
   ((count_agreement.2.2.1 sampleLLaMA3 "abc").2.1 _ rfl).1,
   congrArg Prod.fst ((count_agreement.2.2.2 sampleRemote sampleClaude sampleWorld _ "hi" _ rfl).2)⟩

/-- C4. Sentinel shape of the remote adapter. When `CountTokens(text)` succeeds with count
`n`, `Encode(text)` returns the result whose `Tokens` is the single token with the input text,
ID -1, `Start` 0 and `End` the byte length of the text, whose `TotalCount` is `n` and whose
`Text` is the input; when `CountTokens` fails, `Encode` returns that error and no result. Both
leave the same state behind. -/
theorem sentinel_shape (env : Remote) (c : ClaudeTokenizer) (w : World) (text : String) :
    (∀ (n : Int) (w1 : World), c.CountTokens env w text = (.ok n, w1) →
      c.Encode env w text =
        (.ok { Tokens := [{ Text := text, ID := -1, Start := 0, End := strLen text }],
               TotalCount := n, Text := text, Model := c.model }, w1)) ∧
    (∀ (e : TokenizerError) (w1 : World), c.CountTokens env w text = (.error e, w1) →
      c.Encode env w text = (.error e, w1)) :=
  ⟨fun n w1 h => claude_Encode_ok env c w w1 text n h,
   fun e w1 h => claude_Encode_error env c w w1 text e h⟩

/-- Witness of C4: the sample adapter on the text `hi`, counted as 7 by the transport. -/
theorem sentinel_shape_witness :
    (sampleClaude.Encode sampleRemote sampleWorld "hi").1 =
      .ok { Tokens := [{ Text := "hi", ID := -1, Start := 0, End := 2 }],
            TotalCount := 7, Text := "hi", Model := "m" } :=
  congrArg Prod.fst ((sentinel_shape sampleRemote sampleClaude sampleWorld "hi").1 7 _ rfl)

/-! ## Renderers -/

/-! ## The strings the renderers return -/

theorem output_nil : output [] = "" := rfl

theorem output_cons (p : Piece) (t : List Piece) : output (p :: t) = p.text ++ output t := rfl

theorem output_append (a b : List Piece) : output (a ++ b) = output a ++ output b := by
  induction a with
  | nil => simp only [List.nil_append, output_nil, String.empty_append]
  | cons p t ih =>
    show p.text ++ output (t ++ b) = (p.text ++ output t) ++ output b
    rw [ih, String.append_assoc]

theorem output_flatten_enumFrom {α : Type} (f : Nat → α → List Piece) (g : Nat → α → String)
    (h : ∀ i a, output (f i a) = g i a) (l : List α) :
    ∀ k, output ((l.enumFrom k).map (fun p => f p.1 p.2)).flatten =
      concatStrings ((l.enumFrom k).map (fun p => g p.1 p.2)) := by
  induction l with
  | nil => intro k; rfl
  | cons a t ih =>
    intro k
    simp only [List.enumFrom_cons, List.map_cons, List.flatten_cons, output_append, h, ih (k + 1),
      concatStrings]

theorem terminal_tokenWrites_string (lg : Lipgloss) (r : TerminalRenderer) (n i : Nat)
    (token : Token) :
    output (TerminalRenderer.tokenWrites lg r n i token) =
      lg.Render (tokenStyle i) token.Text ++
        ((if r.showBoundaries = true ∧ i + 1 < n then
            lg.Render (NewStyle.Foreground "238") "|" else "") ++
         (if r.showIDs = true ∧ 0 ≤ token.ID then
            lg.Render tokenIDStyle ("[" ++ fmtInt token.ID ++ "]") else "")) := by
  have hiff : ((i : Int) < (n : Int) - 1) ↔ i + 1 < n := by omega
  unfold TerminalRenderer.tokenWrites
  cases r.showIDs <;> cases r.showBoundaries <;> by_cases h1 : i + 1 < n <;>
    by_cases h2 : 0 ≤ token.ID <;> simp [hiff, h1, h2, output_cons, output_nil]

theorem terminal_RenderSingle_string (lg : Lipgloss) (r : TerminalRenderer)
    (result : TokenizationResult) :
    TerminalRenderer.RenderSingle lg r result =
      lg.Render headerStyle ("🔤 " ++ result.Model) ++ ("\n\n" ++
        (lg.Render statsStyle ("Total tokens: " ++ fmtInt result.TotalCount) ++ ("\n\n" ++
          (concatStrings (result.Tokens.enum.map (fun p =>
            lg.Render (tokenStyle p.1) p.2.Text ++
              ((if r.showBoundaries = true ∧ p.1 + 1 < result.Tokens.length then
                  lg.Render (NewStyle.Foreground "238") "|" else "") ++
               (if r.showIDs = true ∧ 0 ≤ p.2.ID then
                  lg.Render tokenIDStyle ("[" ++ fmtInt p.2.ID ++ "]") else "")))) ++
            "\n")))) := by
  simp only [TerminalRenderer.RenderSingle, TerminalRenderer.RenderSingleWrites, output_append,
    List.enum]
  rw [output_flatten_enumFrom _ _
    (fun i a => terminal_tokenWrites_string lg r result.Tokens.length i a)]
  simp only [output_cons, output_nil, String.append_assoc, String.append_empty]

theorem terminal_columnTokenWrites_string (lg : Lipgloss) (r : TerminalRenderer) (i : Nat)
    (token : Token) :
    output (TerminalRenderer.columnTokenWrites lg r i token) =
      lg.Render (tokenStyle i)
          (if r.showBoundaries = true then "[" ++ token.Text ++ "]" else token.Text) ++
        ((if r.showIDs = true ∧ 0 ≤ token.ID then
            lg.Render tokenIDStyle ("(" ++ fmtInt token.ID ++ ")") else "") ++ "\n") := by
  have hparts : output (TerminalRenderer.columnTokenParts r token) =
      if r.showBoundaries = true then "[" ++ token.Text ++ "]" else token.Text := by
    unfold TerminalRenderer.columnTokenParts
    cases r.showBoundaries
    · simp only [Bool.false_eq_true, if_false, output_cons, output_nil]
      exact String.ext (by simp)
    · simp only [if_true, output_cons, output_nil]
      exact String.ext (by simp)
  unfold TerminalRenderer.columnTokenWrites
  rw [hparts]
  cases r.showIDs <;> by_cases h2 : 0 ≤ token.ID <;> simp [h2, output_cons, output_nil]

theorem terminal_renderColumn_string (lg : Lipgloss) (r : TerminalRenderer)
    (result : TokenizationResult) :
    TerminalRenderer.renderColumn lg r result =
      lg.Render columnStyle
        (lg.Render (((NewStyle.Bold true).Foreground "86").Underline true) result.Model ++
          ("\n\n" ++ (lg.Render statsStyle ("Tokens: " ++ fmtInt result.TotalCount) ++ ("\n\n" ++
            concatStrings (result.Tokens.enum.map (fun p =>
              lg.Render (tokenStyle p.1)
                  (if r.showBoundaries = true then "[" ++ p.2.Text ++ "]" else p.2.Text) ++
                ((if r.showIDs = true ∧ 0 ≤ p.2.ID then
                    lg.Render tokenIDStyle ("(" ++ fmtInt p.2.ID ++ ")") else "") ++
                  "\n"))))))) := by
  simp only [TerminalRenderer.renderColumn, TerminalRenderer.columnWrites, output_append,
    List.enum]
  rw [output_flatten_enumFrom _ _ (fun i a => terminal_columnTokenWrites_string lg r i a)]
  simp only [output_cons, output_nil, String.append_assoc, String.append_empty]

theorem html_tokenWrites_string (r : HTMLInlineRenderer) (i : Nat) (token : Token) :
    output (HTMLInlineRenderer.tokenWrites r i token) =
      (if r.showBoundaries = true ∧ 0 < i then "<span class=\"boundary\">|</span>" else "") ++
        ("<span class=\"token token-" ++ fmtInt ((i % 8 : Nat) : Int) ++ "\">"
            ++ escapeHTML token.Text ++ "</span>" ++
          (if r.showIDs = true then
            "<span class=\"token-id\">[" ++ fmtInt token.ID ++ "]</span>" else "")) := by
  have h8 : htmlTokenColors.length = 8 := rfl
  unfold HTMLInlineRenderer.tokenWrites
  rw [h8]
  cases r.showIDs <;> cases r.showBoundaries <;> by_cases h1 : 0 < i <;> simp [h1, output_cons, output_nil]

theorem html_resultWrites_string (r : HTMLInlineRenderer) (result : TokenizationResult) :
    output (HTMLInlineRenderer.resultWrites r result) =
      "<div class=\"model-header\">" ++ escapeHTML result.Model ++ "</div>\n" ++
        ("<div class=\"token-count\">Total tokens: " ++ fmtInt result.TotalCount ++ "</div>\n" ++
          ("<div class=\"tokens\">\n" ++
            (concatStrings (result.Tokens.enum.map (fun p =>
              (if r.showBoundaries = true ∧ 0 < p.1 then
                  "<span class=\"boundary\">|</span>" else "") ++
                ("<span class=\"token token-" ++ fmtInt ((p.1 % 8 : Nat) : Int) ++ "\">"
                    ++ escapeHTML p.2.Text ++ "</span>" ++
                  (if r.showIDs = true then
                    "<span class=\"token-id\">[" ++ fmtInt p.2.ID ++ "]</span>" else "")))) ++
              "\n</div>\n"))) := by
  simp only [HTMLInlineRenderer.resultWrites, output_append, List.enum]
  rw [output_flatten_enumFrom _ _ (fun i a => html_tokenWrites_string r i a)]
  simp only [output_cons, output_nil, String.append_assoc, String.append_empty]

theorem html_RenderSingle_string (r : HTMLInlineRenderer) (result : TokenizationResult) :
    HTMLInlineRenderer.RenderSingle r result =
      "<!DOCTYPE html>\n<html>\n<head>\n" ++ ("<meta charset=\"UTF-8\">\n" ++
        ("<meta name=\"viewport\" content=\"width=device-width, initial-scale=1.0\">\n" ++
          ("<title>Token Visualization</title>\n" ++ (r.generateCSS ++
            ("</head>\n<body>\n<div class=\"container\">\n" ++
              (output (HTMLInlineRenderer.resultWrites r result) ++
                "</div>\n</body>\n</html>\n")))))) := by
  simp only [HTMLInlineRenderer.RenderSingle, HTMLInlineRenderer.RenderSingleWrites,
    output_append]
  simp only [output_cons, output_nil, String.append_assoc, String.append_empty]

theorem html_RenderComparison_string (r : HTMLInlineRenderer)
    (results : List TokenizationResult) :
    HTMLInlineRenderer.RenderComparison r results =
      "<!DOCTYPE html>\n<html>\n<head>\n" ++ ("<meta charset=\"UTF-8\">\n" ++
        ("<meta name=\"viewport\" content=\"width=device-width, initial-scale=1.0\">\n" ++
          ("<title>Token Comparison</title>\n" ++ (r.generateCSS ++
            ("</head>\n<body>\n<div class=\"container\">\n" ++
              ("<div class=\"comparison-container\">\n" ++
                (concatStrings (results.map (fun result =>
                  "<div class=\"comparison-model\">\n" ++
                    (output (HTMLInlineRenderer.resultWrites r result) ++ "</div>\n"))) ++
                  ("</div>\n" ++ "</div>\n</body>\n</html>\n")))))))) := by
  have hmid : ∀ rs : List TokenizationResult,
      output ((rs.map (fun result =>
        [({ part := .markup, text := "<div class=\"comparison-model\">\n" } : Piece)]
        ++ HTMLInlineRenderer.resultWrites r result
        ++ [{ part := .markup, text := "</div>\n" }])).flatten) =
      concatStrings (rs.map (fun result =>
        "<div class=\"comparison-model\">\n" ++
          (output (HTMLInlineRenderer.resultWrites r result) ++ "</div>\n"))) := by
    intro rs
    induction rs with
    | nil => rfl
    | cons a t ih =>
      simp only [List.map_cons, List.flatten_cons, output_append, ih, concatStrings,
        output_cons, output_nil, String.append_assoc, String.append_empty]
  simp only [HTMLInlineRenderer.RenderComparison, HTMLInlineRenderer.RenderComparisonWrites,
    output_append, hmid]
  simp only [output_cons, output_nil, String.append_assoc, String.append_empty]

theorem filter_flatten_enumFrom_idx {α β : Type} (P : β → Bool) (f : Nat → α → List β)
    (G : Nat → List β) (h : ∀ i a, (f i a).filter P = G i) (l : List α) :
    ∀ k, ((l.enumFrom k).map (fun p => f p.1 p.2)).flatten.filter P =
      ((l.enumFrom k).map (fun p => G p.1)).flatten := by
  induction l with
  | nil => intro k; rfl
  | cons a t ih =>
    intro k
    simp only [List.enumFrom_cons, List.map_cons, List.flatten_cons, List.filter_append, h,
      ih (k + 1)]

theorem terminal_tokenWrites_boundary (lg : Lipgloss) (r : TerminalRenderer) (n i : Nat)
    (token : Token) :
    (TerminalRenderer.tokenWrites lg r n i token).filter (fun p => decide (p.part = .boundary)) =
      if r.showBoundaries = true ∧ i + 1 < n then
        [{ part := .boundary, text := lg.Render (NewStyle.Foreground "238") "|" }]
      else [] := by
  have hiff : ((i : Int) < (n : Int) - 1) ↔ i + 1 < n := by omega
  unfold TerminalRenderer.tokenWrites
  cases r.showIDs <;> cases r.showBoundaries <;> by_cases h1 : i + 1 < n <;>
    by_cases h2 : 0 ≤ token.ID <;> simp [hiff, h1, h2]

theorem html_tokenWrites_boundary (r : HTMLInlineRenderer) (i : Nat) (token : Token) :
    (HTMLInlineRenderer.tokenWrites r i token).filter (fun p => decide (p.part = .boundary)) =
      if r.showBoundaries = true ∧ 0 < i then
        [{ part := .boundary, text := "<span class=\"boundary\">|</span>" }]
      else [] := by
  unfold HTMLInlineRenderer.tokenWrites
  cases r.showIDs <;> cases r.showBoundaries <;> by_cases h1 : 0 < i <;> simp [h1]

theorem markers_after {α : Type} (m : Piece) (n : Nat) (l : List α) :
    ∀ k, k + l.length = n →
      ((l.enumFrom k).map (fun p => if True ∧ p.1 + 1 < n then [m] else [])).flatten =
        List.replicate (l.length - 1) m := by
  induction l with
  | nil => intro k _; rfl
  | cons a t ih =>
    intro k hk
    cases t with
    | nil =>
      simp only [List.length_singleton] at hk
      have : ¬ (k + 1 < n) := by omega
      simp [List.enumFrom, this]
    | cons b t2 =>
      simp only [List.length_cons] at hk
      have hlt : k + 1 < n := by omega
      have := ih (k + 1) (by simp only [List.length_cons]; omega)
      simp only [List.enumFrom_cons, List.map_cons, List.flatten_cons, List.length_cons] at this ⊢
      rw [this]
      simp [hlt, List.replicate]

theorem markers_before_tail {α : Type} (m : Piece) (l : List α) :
    ∀ k, 0 < k →
      ((l.enumFrom k).map (fun p => if True ∧ 0 < p.1 then [m] else [])).flatten =
        List.replicate l.length m := by
  induction l with
  | nil => intro k _; rfl
  | cons a t ih =>
    intro k hk
    simp only [List.enumFrom_cons, List.map_cons, List.flatten_cons, List.length_cons,
      ih (k + 1) (by omega)]
    simp [hk, List.replicate]

theorem markers_before {α : Type} (m : Piece) (l : List α) :
    ((l.enumFrom 0).map (fun p => if True ∧ 0 < p.1 then [m] else [])).flatten =
      List.replicate (l.length - 1) m := by
  cases l with
  | nil => rfl
  | cons a t =>
    simp only [List.enumFrom_cons, List.map_cons, List.flatten_cons, List.length_cons,
      markers_before_tail m t 1 (by omega)]
    simp

theorem terminal_boundary_writes (lg : Lipgloss) (r : TerminalRenderer)
    (result : TokenizationResult) :
    (TerminalRenderer.RenderSingleWrites lg r result).filter
        (fun p => decide (p.part = .boundary)) =
      List.replicate (if r.showBoundaries = true then result.Tokens.length - 1 else 0)
        { part := .boundary, text := lg.Render (NewStyle.Foreground "238") "|" } := by
  simp only [TerminalRenderer.RenderSingleWrites, List.filter_append, List.enum]
  rw [filter_flatten_enumFrom_idx _ _ _
    (fun i a => terminal_tokenWrites_boundary lg r result.Tokens.length i a)]
  cases hb : r.showBoundaries
  · simp only [Bool.false_eq_true, false_and, if_false]
    simp [List.filter]
  · simp only [true_and, if_true]
    have := markers_after (⟨.boundary, lg.Render (NewStyle.Foreground "238") "|"⟩ : Piece)
      result.Tokens.length result.Tokens 0 (by omega)
    simp only [true_and] at this
    rw [this]
    simp [List.filter]

theorem html_boundary_writes (r : HTMLInlineRenderer) (result : TokenizationResult) :
    (HTMLInlineRenderer.RenderSingleWrites r result).filter
        (fun p => decide (p.part = .boundary)) =
      List.replicate (if r.showBoundaries = true then result.Tokens.length - 1 else 0)
        { part := .boundary, text := "<span class=\"boundary\">|</span>" } := by
  simp only [HTMLInlineRenderer.RenderSingleWrites, HTMLInlineRenderer.resultWrites,
    List.filter_append, List.enum]
  rw [filter_flatten_enumFrom_idx _ _ _ (fun i a => html_tokenWrites_boundary r i a)]
  cases hb : r.showBoundaries
  · simp only [Bool.false_eq_true, false_and, if_false]
    simp [List.filter]
  · simp only [true_and, if_true]
    have := markers_before (⟨.boundary, "<span class=\"boundary\">|</span>"⟩ : Piece)
      result.Tokens
    simp only [true_and] at this
    rw [this]
    simp [List.filter]

theorem concat_intersperse_after {α : Type} (m : String) (n : Nat) (S : Nat × α → String)
    (l : List α) :
    ∀ k, k + l.length = n →
      concatStrings ((l.enumFrom k).map (fun p =>
        S p ++ ((if True ∧ p.1 + 1 < n then m else "") ++ ""))) =
      concatStrings (((l.enumFrom k).map S).intersperse m) := by
  induction l with
  | nil => intro k _; rfl
  | cons a t ih =>
    intro k hk
    cases t with
    | nil =>
      simp only [List.length_singleton] at hk
      have : ¬ (k + 1 < n) := by omega
      simp [List.enumFrom, this, concatStrings, List.intersperse]
    | cons b t2 =>
      simp only [List.length_cons] at hk
      have hlt : k + 1 < n := by omega
      have := ih (k + 1) (by simp only [List.length_cons]; omega)
      simp only [List.enumFrom_cons, List.map_cons, List.intersperse, concatStrings] at this ⊢
      rw [this]
      simp [hlt, String.append_assoc]

theorem terminal_RenderSingle_interspersed (lg : Lipgloss) (b : Bool)
    (result : TokenizationResult) :
    TerminalRenderer.RenderSingle lg { showIDs := false, showBoundaries := b } result =
      lg.Render headerStyle ("🔤 " ++ result.Model) ++ ("\n\n" ++
        (lg.Render statsStyle ("Total tokens: " ++ fmtInt result.TotalCount) ++ ("\n\n" ++
          (concatStrings
            (if b = true then
              (result.Tokens.enum.map (fun p => lg.Render (tokenStyle p.1) p.2.Text)).intersperse
                (lg.Render (NewStyle.Foreground "238") "|")
             else result.Tokens.enum.map (fun p => lg.Render (tokenStyle p.1) p.2.Text)) ++
            "\n")))) := by
  rw [terminal_RenderSingle_string]
  cases b
  · simp only [Bool.false_eq_true, false_and, if_false, String.append_empty]
  · have := concat_intersperse_after (lg.Render (NewStyle.Foreground "238") "|")
      result.Tokens.length (fun p : Nat × Token => lg.Render (tokenStyle p.1) p.2.Text)
      result.Tokens 0 (by omega)
    simp only [Bool.false_eq_true, false_and, if_false, true_and, if_true, List.enum] at this ⊢
    rw [this]

theorem html_RenderSingle_closed (r : HTMLInlineRenderer) (result : TokenizationResult) :
    HTMLInlineRenderer.RenderSingle r result =
      "<!DOCTYPE html>\n<html>\n<head>\n" ++ ("<meta charset=\"UTF-8\">\n" ++
        ("<meta name=\"viewport\" content=\"width=device-width, initial-scale=1.0\">\n" ++
          ("<title>Token Visualization</title>\n" ++ (r.generateCSS ++
            ("</head>\n<body>\n<div class=\"container\">\n" ++
              (("<div class=\"model-header\">" ++ escapeHTML result.Model ++ "</div>\n" ++
                ("<div class=\"token-count\">Total tokens: " ++ fmtInt result.TotalCount
                    ++ "</div>\n" ++
                  ("<div class=\"tokens\">\n" ++
                    (concatStrings (result.Tokens.enum.map (fun p =>
                      (if r.showBoundaries = true ∧ 0 < p.1 then
                          "<span class=\"boundary\">|</span>" else "") ++
                        ("<span class=\"token token-" ++ fmtInt ((p.1 % 8 : Nat) : Int) ++ "\">"
                            ++ escapeHTML p.2.Text ++ "</span>" ++
                          (if r.showIDs = true then
                            "<span class=\"token-id\">[" ++ fmtInt p.2.ID ++ "]</span>"
                           else "")))) ++
                      "\n</div>\n")))) ++
                "</div>\n</body>\n</html>\n")))))) := by
  rw [html_RenderSingle_string, html_resultWrites_string]

theorem html_RenderComparison_closed (r : HTMLInlineRenderer)
    (results : List TokenizationResult) :
    HTMLInlineRenderer.RenderComparison r results =
      "<!DOCTYPE html>\n<html>\n<head>\n" ++ ("<meta charset=\"UTF-8\">\n" ++
        ("<meta name=\"viewport\" content=\"width=device-width, initial-scale=1.0\">\n" ++
          ("<title>Token Comparison</title>\n" ++ (r.generateCSS ++
            ("</head>\n<body>\n<div class=\"container\">\n" ++
              ("<div class=\"comparison-container\">\n" ++
                (concatStrings (results.map (fun result =>
                  "<div class=\"comparison-model\">\n" ++
                    (("<div class=\"model-header\">" ++ escapeHTML result.Model ++ "</div>\n" ++
                      ("<div class=\"token-count\">Total tokens: " ++ fmtInt result.TotalCount
                          ++ "</div>\n" ++
                        ("<div class=\"tokens\">\n" ++
                          (concatStrings (result.Tokens.enum.map (fun p =>
                            (if r.showBoundaries = true ∧ 0 < p.1 then
                                "<span class=\"boundary\">|</span>" else "") ++
                              ("<span class=\"token token-" ++ fmtInt ((p.1 % 8 : Nat) : Int)
                                  ++ "\">" ++ escapeHTML p.2.Text ++ "</span>" ++
                                (if r.showIDs = true then
                                  "<span class=\"token-id\">[" ++ fmtInt p.2.ID ++ "]</span>"
                                 else "")))) ++
                            "\n</div>\n")))) ++
                      "</div>\n"))) ++
                  ("</div>\n" ++ "</div>\n</body>\n</html>\n")))))))) := by
  rw [html_RenderComparison_string]
  simp only [html_resultWrites_string]

/-! ## Comparison of one result, token IDs, column boundaries -/

/-- C5. For the Markdown renderer and the Terminal renderer, `RenderComparison` of the
one-element list `[r]` is `RenderSingle(r)`, for every result and every setting of the flags. -/
theorem comparison_of_one_is_single (lg : Lipgloss) (tr : TerminalRenderer)
    (mr : MarkdownRenderer) (result : TokenizationResult) :
    TerminalRenderer.RenderComparison lg tr [result] = TerminalRenderer.RenderSingle lg tr result ∧
    MarkdownRenderer.RenderComparison mr [result] = MarkdownRenderer.RenderSingle mr result :=
  ⟨rfl, rfl⟩

theorem string_append_left_cancel (a x y : String) (h : a ++ x = a ++ y) : x = y := by
  have h2 := congrArg String.data h
  simp only [String.data_append] at h2
  exact String.ext (List.append_cancel_left h2)

theorem append_ne_of_take_ne (a b x y : String) (n : Nat) (ha : n ≤ a.data.length)
    (hb : n ≤ b.data.length) (hne : a.data.take n ≠ b.data.take n) : a ++ x ≠ b ++ y := by
  intro h
  have h2 := congrArg (fun s => s.data.take n) h
  simp only [String.data_append, List.take_append_of_le_length ha,
    List.take_append_of_le_length hb] at h2
  exact hne h2

/-- C6. The HTML renderer has no one-result case in `RenderComparison`: for every result
and every setting of the flags its output on `[r]` differs from `RenderSingle(r)` (the title
is another and the comparison containers are written). -/
theorem html_comparison_of_one_differs (r : HTMLInlineRenderer) (result : TokenizationResult) :
    HTMLInlineRenderer.RenderComparison r [result] ≠ HTMLInlineRenderer.RenderSingle r result := by
  intro h
  simp only [HTMLInlineRenderer.RenderComparison, HTMLInlineRenderer.RenderSingle,
    HTMLInlineRenderer.RenderComparisonWrites, HTMLInlineRenderer.RenderSingleWrites,
    List.cons_append, List.nil_append, output] at h
  have h1 := string_append_left_cancel _ _ _ h
  have h2 := string_append_left_cancel _ _ _ h1
  have h3 := string_append_left_cancel _ _ _ h2
  exact append_ne_of_take_ne _ _ _ _ 14 (by decide) (by decide) (by decide) h3

set_option maxRecDepth 100000 in
/-- C7. The HTML renderer writes the ID span of a sentinel token: with `showIDs` set, the
result of the remote adapter (one token with ID -1) gets the span `[-1]` both in `RenderSingle`
and in `RenderComparison`. -/
theorem html_renders_sentinel_id :
    (sampleClaude.Encode sampleRemote sampleWorld "hi").1 = .ok sentinelResult ∧
    { part := .tokenID, text := "<span class=\"token-id\">[-1]</span>" } ∈
      HTMLInlineRenderer.RenderSingleWrites { showIDs := true, showBoundaries := false }
        sentinelResult ∧
    { part := .tokenID, text := "<span class=\"token-id\">[-1]</span>" } ∈
      HTMLInlineRenderer.RenderComparisonWrites { showIDs := true, showBoundaries := false }
        [sentinelResult, sentinelResult] := by
  refine ⟨rfl, ?_, ?_⟩ <;> decide

set_option maxRecDepth 100000 in
/-- C8. The Markdown renderer looks at the first token only: with `showIDs` set, a result
whose first token has an ID and whose second token carries the sentinel gets the ID cell `-1`
in the row of the second token, in `RenderSingle` and in `RenderComparison`. -/
theorem markdown_renders_sentinel_id :
    MarkdownRenderer.RenderSingle { showIDs := true } mixedResult =
      "# m\n\n**Total tokens:** 2\n\n## Tokens\n\n| # | Text | ID |\n|---|------|----|\n| 1 | `a` | 5 |\n| 2 | `b` | -1 |\n" ∧
    MarkdownRenderer.RenderComparison { showIDs := true } [mixedResult, oneTokenResult] =
      "# Token Comparison\n\n## Token Counts\n\n| Model | Token Count |\n|-------|-------------|\n| m | 2 |\n| m | 1 |\n\n## m\n\n| # | Text | ID |\n|---|------|----|\n| 1 | `a` | 5 |\n| 2 | `b` | -1 |\n\n## m\n\n| # | Text | ID |\n|---|------|----|\n| 1 | `ab` | 5 |\n\n" := by
  constructor <;> decide

theorem filter_flatten_enumFrom {α β : Type} (P : β → Bool) (f : Nat → α → List β)
    (g : α → List β) (h : ∀ i a, (f i a).filter P = g a) (l : List α) :
    ∀ n, ((l.enumFrom n).map (fun p => f p.1 p.2)).flatten.filter P = (l.map g).flatten := by
  induction l with
  | nil => intro n; rfl
  | cons a t ih =>
    intro n
    simp only [List.enumFrom_cons, List.map_cons, List.flatten_cons, List.filter_append, h,
      ih (n + 1)]

theorem flatten_map_ite {α β : Type} (c : α → Bool) (g : α → β) (l : List α) :
    (l.map (fun a => if c a = true then [g a] else [])).flatten = (l.filter c).map g := by
  induction l with
  | nil => rfl
  | cons a t ih =>
    cases hc : c a <;> simp [List.filter, hc, ih]

theorem terminal_tokenWrites_ids (lg : Lipgloss) (r : TerminalRenderer) (n i : Nat)
    (token : Token) :
    (TerminalRenderer.tokenWrites lg r n i token).filter (fun p => decide (p.part = .tokenID)) =
      if (r.showIDs && decide (0 ≤ token.ID)) = true then
        [{ part := .tokenID, text := lg.Render tokenIDStyle ("[" ++ fmtInt token.ID ++ "]") }]
      else [] := by
  unfold TerminalRenderer.tokenWrites
  cases r.showIDs <;> cases r.showBoundaries <;> by_cases h1 : (i : Int) < (n : Int) - 1 <;>
    by_cases h2 : 0 ≤ token.ID <;> simp [h1, h2]

theorem terminal_columnTokenWrites_ids (lg : Lipgloss) (r : TerminalRenderer) (i : Nat)
    (token : Token) :
    (TerminalRenderer.columnTokenWrites lg r i token).filter
        (fun p => decide (p.part = .tokenID)) =
      if (r.showIDs && decide (0 ≤ token.ID)) = true then
        [{ part := .tokenID, text := lg.Render tokenIDStyle ("(" ++ fmtInt token.ID ++ ")") }]
      else [] := by
  unfold TerminalRenderer.columnTokenWrites
  cases r.showIDs <;> by_cases h2 : 0 ≤ token.ID <;> simp [h2]

/-- C9. Token-ID display in the Terminal renderer. In the token loop of `RenderSingle` and
of `renderColumn` the ID annotation of a token is written if and only if `showIDs` is set and
the ID of the token is non-negative; over a whole result the ID annotations written are, in
order, those of the tokens with a non-negative ID when `showIDs` is set, and none otherwise.
The strings `RenderSingle` and `renderColumn` return are the concatenation of those writes: the
styled `[id]`, respectively `(id)`, follows a token exactly under that condition. -/
theorem terminal_id_annotation (lg : Lipgloss) (r : TerminalRenderer) :
    (∀ result : TokenizationResult,
      TerminalRenderer.RenderSingle lg r result =
        output (TerminalRenderer.RenderSingleWrites lg r result) ∧
      TerminalRenderer.RenderSingle lg r result =
        lg.Render headerStyle ("🔤 " ++ result.Model) ++ ("\n\n" ++
          (lg.Render statsStyle ("Total tokens: " ++ fmtInt result.TotalCount) ++ ("\n\n" ++
            (concatStrings (result.Tokens.enum.map (fun p =>
              lg.Render (tokenStyle p.1) p.2.Text ++
                ((if r.showBoundaries = true ∧ p.1 + 1 < result.Tokens.length then
                    lg.Render (NewStyle.Foreground "238") "|" else "") ++
                 (if r.showIDs = true ∧ 0 ≤ p.2.ID then
                    lg.Render tokenIDStyle ("[" ++ fmtInt p.2.ID ++ "]") else "")))) ++
              "\n"))))) ∧
    (∀ result : TokenizationResult,
      TerminalRenderer.renderColumn lg r result =
        lg.Render columnStyle (output (TerminalRenderer.columnWrites lg r result)) ∧
      TerminalRenderer.renderColumn lg r result =
        lg.Render columnStyle
          (lg.Render (((NewStyle.Bold true).Foreground "86").Underline true) result.Model ++
            ("\n\n" ++ (lg.Render statsStyle ("Tokens: " ++ fmtInt result.TotalCount) ++
              ("\n\n" ++
              concatStrings (result.Tokens.enum.map (fun p =>
                lg.Render (tokenStyle p.1)
                    (if r.showBoundaries = true then "[" ++ p.2.Text ++ "]" else p.2.Text) ++
                  ((if r.showIDs = true ∧ 0 ≤ p.2.ID then
                      lg.Render tokenIDStyle ("(" ++ fmtInt p.2.ID ++ ")") else "") ++
                    "\n")))))))) ∧
    (∀ (n i : Nat) (token : Token),
      (∃ p ∈ TerminalRenderer.tokenWrites lg r n i token, p.part = .tokenID) ↔
        (r.showIDs = true ∧ 0 ≤ token.ID)) ∧
    (∀ (i : Nat) (token : Token),
      (∃ p ∈ TerminalRenderer.columnTokenWrites lg r i token, p.part = .tokenID) ↔
        (r.showIDs = true ∧ 0 ≤ token.ID)) ∧
    (∀ result : TokenizationResult,
      (TerminalRenderer.RenderSingleWrites lg r result).filter
          (fun p => decide (p.part = .tokenID)) =
        (result.Tokens.filter (fun t => r.showIDs && decide (0 ≤ t.ID))).map (fun t =>
          { part := .tokenID, text := lg.Render tokenIDStyle ("[" ++ fmtInt t.ID ++ "]") })) ∧
    (∀ result : TokenizationResult,
      (TerminalRenderer.columnWrites lg r result).filter
          (fun p => decide (p.part = .tokenID)) =
        (result.Tokens.filter (fun t => r.showIDs && decide (0 ≤ t.ID))).map (fun t =>
          { part := .tokenID, text := lg.Render tokenIDStyle ("(" ++ fmtInt t.ID ++ ")") })) := by
  have key : ∀ (l : List Piece) (q : Piece) (c : Bool),
      l.filter (fun p => decide (p.part = .tokenID)) = (if c = true then [q] else []) →
      ((∃ p ∈ l, p.part = .tokenID) ↔ c = true) := by
    intro l q c h
    constructor
    · rintro ⟨p, hp, hpart⟩
      have hmem : p ∈ l.filter (fun p => decide (p.part = .tokenID)) :=
        List.mem_filter.mpr ⟨hp, by simp [hpart]⟩
      rw [h] at hmem
      cases c
      · simp at hmem
      · rfl
    · intro hc
      rw [hc] at h
      have hq : q ∈ l.filter (fun p => decide (p.part = .tokenID)) := by rw [h]; simp
      obtain ⟨hq1, hq2⟩ := List.mem_filter.mp hq
      exact ⟨q, hq1, by simpa using hq2⟩
  refine ⟨fun result => ⟨rfl, terminal_RenderSingle_string lg r result⟩,
    fun result => ⟨rfl, terminal_renderColumn_string lg r result⟩, ?_, ?_, ?_, ?_⟩
  · intro n i token
    rw [key _ _ _ (terminal_tokenWrites_ids lg r n i token)]
    simp
  · intro i token
    rw [key _ _ _ (terminal_columnTokenWrites_ids lg r i token)]
    simp
  · intro result
    simp only [TerminalRenderer.RenderSingleWrites, List.filter_append, List.enum]
    rw [filter_flatten_enumFrom _ _ _
      (fun i a => terminal_tokenWrites_ids lg r result.Tokens.length i a)]
    rw [flatten_map_ite (fun t : Token => r.showIDs && decide (0 ≤ t.ID))
      (fun t : Token => ({ part := .tokenID, text := lg.Render tokenIDStyle ("[" ++ fmtInt t.ID ++ "]") } : Piece))]
    simp [List.filter]
  · intro result
    simp only [TerminalRenderer.columnWrites, List.filter_append, List.enum]
    rw [filter_flatten_enumFrom _ _ _ (fun i a => terminal_columnTokenWrites_ids lg r i a)]
    rw [flatten_map_ite (fun t : Token => r.showIDs && decide (0 ≤ t.ID))
      (fun t : Token => ({ part := .tokenID, text := lg.Render tokenIDStyle ("(" ++ fmtInt t.ID ++ ")") } : Piece))]
    simp [List.filter]

theorem output_columnTokenParts (r : TerminalRenderer) (token : Token) :
    output (TerminalRenderer.columnTokenParts r token) =
      if r.showBoundaries = true then "[" ++ token.Text ++ "]" else token.Text := by
  unfold TerminalRenderer.columnTokenParts
  cases r.showBoundaries
  · simp only [Bool.false_eq_true, if_false, output]
    exact String.ext (by simp)
  · simp only [if_true, output]
    exact String.ext (by simp)

theorem columnBoundaryMarkers_length (r : TerminalRenderer) (tokens : List Token) :
    (((tokens.map (TerminalRenderer.columnTokenParts r)).flatten).filter
        (fun p => decide (p.part = .boundary))).length =
      if r.showBoundaries = true then 2 * tokens.length else 0 := by
  induction tokens with
  | nil => simp
  | cons t rest ih =>
    simp only [List.map_cons, List.flatten_cons, List.filter_append, List.length_append, ih,
      List.length_cons]
    unfold TerminalRenderer.columnTokenParts
    cases r.showBoundaries
    · simp
    · simp [List.filter]; omega

theorem columnTokenWrites_no_boundary (lg : Lipgloss) (r : TerminalRenderer) (i : Nat)
    (token : Token) :
    (TerminalRenderer.columnTokenWrites lg r i token).filter
        (fun p => decide (p.part = .boundary)) = [] := by
  unfold TerminalRenderer.columnTokenWrites
  cases r.showIDs <;> by_cases h2 : 0 ≤ token.ID <;> simp [h2]

/-- C10, the claim as stated fails. In the comparison of two one-token results with
`showBoundaries` set (lipgloss applying no styling), the only token of each column is written as
`[ab]`: the column has two boundary markers, not 1 - 1 = 0, and a marker precedes the text of
its first token. -/
theorem column_boundary_counterexample :
    TerminalRenderer.RenderComparison plainLipgloss { showIDs := false, showBoundaries := true }
        [oneTokenResult, oneTokenResult] =
      "m\n\nTokens: 1\n\n[ab]\nm\n\nTokens: 1\n\n[ab]\n" ∧
    (TerminalRenderer.columnBoundaryMarkers { showIDs := false, showBoundaries := true }
        oneTokenResult).length = 2 ∧
    (TerminalRenderer.columnBoundaryMarkers { showIDs := false, showBoundaries := true }
        oneTokenResult).length ≠ oneTokenResult.Tokens.length - 1 ∧
    (TerminalRenderer.columnTokenParts { showIDs := false, showBoundaries := true }
        { Text := "ab", ID := 5, Start := 0, End := 2 }).head? =
      some { part := .boundary, text := "[" } := by
  refine ⟨?_, ?_, ?_, ?_⟩ <;> decide

/-- C10, amended. `TerminalRenderer.RenderComparison` of two or more results joins the
columns of `renderColumn`. In a column every token is written on a line of its own as one styled
string, which is the token text wrapped in brackets when `showBoundaries` is set and the bare
token text otherwise; no separate boundary marker is written between tokens. A column with `n`
tokens therefore carries `2 * n` bracket markers when `showBoundaries` is set (one before and
one after the text of every token, the first and the last included) and none when it is
unset. The string `renderColumn` returns is the styled concatenation of those writes. -/
theorem column_boundary_brackets (lg : Lipgloss) (r : TerminalRenderer) :
    (∀ (a b : TokenizationResult) (rest : List TokenizationResult),
      TerminalRenderer.RenderComparison lg r (a :: b :: rest) =
        lg.JoinHorizontalTop ((a :: b :: rest).map (TerminalRenderer.renderColumn lg r))) ∧
    (∀ result : TokenizationResult,
      TerminalRenderer.renderColumn lg r result =
        lg.Render columnStyle (output (TerminalRenderer.columnWrites lg r result)) ∧
      TerminalRenderer.renderColumn lg r result =
        lg.Render columnStyle
          (lg.Render (((NewStyle.Bold true).Foreground "86").Underline true) result.Model ++
            ("\n\n" ++ (lg.Render statsStyle ("Tokens: " ++ fmtInt result.TotalCount) ++
              ("\n\n" ++
              concatStrings (result.Tokens.enum.map (fun p =>
                lg.Render (tokenStyle p.1)
                    (if r.showBoundaries = true then "[" ++ p.2.Text ++ "]" else p.2.Text) ++
                  ((if r.showIDs = true ∧ 0 ≤ p.2.ID then
                      lg.Render tokenIDStyle ("(" ++ fmtInt p.2.ID ++ ")") else "") ++
                    "\n")))))))) ∧
    (∀ (i : Nat) (token : Token),
      (TerminalRenderer.columnTokenWrites lg r i token).head? =
        some { part := .token,
               text := lg.Render (tokenStyle i)
                 (if r.showBoundaries = true then "[" ++ token.Text ++ "]" else token.Text) } ∧
      (TerminalRenderer.columnTokenWrites lg r i token).getLast? =
        some { part := .markup, text := "\n" }) ∧
    (∀ result : TokenizationResult,
      (TerminalRenderer.columnWrites lg r result).filter
        (fun p => decide (p.part = .boundary)) = []) ∧
    (∀ result : TokenizationResult,
      (TerminalRenderer.columnBoundaryMarkers r result).length =
        if r.showBoundaries = true then 2 * result.Tokens.length else 0) := by
  refine ⟨fun a b rest => rfl,
    fun result => ⟨rfl, terminal_renderColumn_string lg r result⟩, ?_, ?_, ?_⟩
  · intro i token
    constructor
    · rw [← output_columnTokenParts]
      rfl
    · unfold TerminalRenderer.columnTokenWrites
      cases r.showIDs <;> by_cases h2 : 0 ≤ token.ID <;> simp [h2]
  · intro result
    simp only [TerminalRenderer.columnWrites, List.filter_append, List.enum]
    rw [filter_flatten_enumFrom _ _ (fun _ => [])
      (fun i a => columnTokenWrites_no_boundary lg r i a)]
    simp [List.filter]
  · intro result
    exact columnBoundaryMarkers_length r result.Tokens

/-! ## Empty comparison, status handling, cache failures -/

/-- C14. `RenderComparison` of the empty list is the empty string, for the Markdown and for
the Terminal renderer, under every setting of the flags. -/
theorem comparison_of_none_is_empty (lg : Lipgloss) (tr : TerminalRenderer)
    (mr : MarkdownRenderer) :
    TerminalRenderer.RenderComparison lg tr [] = "" ∧
    MarkdownRenderer.RenderComparison mr [] = "" :=
  ⟨rfl, rfl⟩

theorem cached_none_of_no_cache (env : Remote) (tk : ClaudeTokenizer) (w : World)
    (text : String) (h : tk.cache = none) : tk.cached env w text = none := by
  simp only [ClaudeTokenizer.cached, h]

theorem CountTokens_of_miss (env : Remote) (tk : ClaudeTokenizer) (w : World) (text : String)
    (hmiss : tk.cached env w text = none) :
    (tk.CountTokens env w text).1 =
      (match env.client w.sent (tk.request text) with
       | .transportError => .error .sendRequest
       | .response statusCode body =>
         if statusCode ≠ 200 then .error (.apiStatus statusCode body)
         else match env.decodeInputTokens body with
           | none => .error .decodeResponse
           | some n => .ok n) ∧
    (tk.CountTokens env w text).2.sent = w.sent ++ [tk.request text] := by
  unfold ClaudeTokenizer.CountTokens
  rw [hmiss]
  cases hcl : env.client w.sent (tk.request text) with
  | transportError => simp only [hcl, and_self]
  | response statusCode body =>
    by_cases hs : statusCode = 200
    · cases hd : env.decodeInputTokens body with
      | none => simp [hcl, hs, hd]
      | some n =>
        cases hc : tk.cache with
        | none => simp [hcl, hs, hd]
        | some ca =>
          cases hset : ca.Set env.sha256Hex w.fs (tk.cacheKey text) n with
          | error e => simp [hcl, hs, hd, hset]
          | ok fs1 => simp [hcl, hs, hd, hset]
    · simp [hcl, hs]

/-- C15, the claim as stated fails. With caching disabled and a transport that answers with
status 201 (a 2xx status) and a payload that decodes to 7, `CountTokens` returns the status
error and not the count. -/
theorem status_201_counterexample :
    sampleRemote201.client [] (sampleClaudeNoCache.request "hi") = .response 201 "seven" ∧
    sampleRemote201.decodeInputTokens "seven" = some 7 ∧
    (sampleClaudeNoCache.CountTokens sampleRemote201 sampleWorld "hi").1 =
      .error (.apiStatus 201 "seven") := by
  refine ⟨rfl, rfl, rfl⟩

/-- C15, amended. On a cache miss or with caching disabled, `CountTokens` hands one request
to the transport; when the response has a status other than 200 it returns the error that
carries the status code and the response body; when the status is 200 it returns the decoded
`input_tokens` value, or the decoding error when the payload does not decode. -/
theorem status_handling (env : Remote) (tk : ClaudeTokenizer) (w : World) (text body : String)
    (statusCode : Int) (hmiss : tk.cached env w text = none)
    (hresp : env.client w.sent (tk.request text) = .response statusCode body) :
    (tk.CountTokens env w text).2.sent = w.sent ++ [tk.request text] ∧
    (statusCode ≠ 200 →
      (tk.CountTokens env w text).1 = .error (.apiStatus statusCode body)) ∧
    (statusCode = 200 → ∀ n, env.decodeInputTokens body = some n →
      (tk.CountTokens env w text).1 = .ok n) ∧
    (statusCode = 200 → env.decodeInputTokens body = none →
      (tk.CountTokens env w text).1 = .error .decodeResponse) := by
  obtain ⟨h1, h2⟩ := CountTokens_of_miss env tk w text hmiss
  rw [hresp] at h1
  refine ⟨h2, ?_, ?_, ?_⟩
  · intro hs; rw [h1]; simp [hs]
  · intro hs n hd; rw [h1]; simp [hs, hd]
  · intro hs hd; rw [h1]; simp [hs, hd]

/-- Witness of C15: the sample adapter without cache; status 201 gives the status error and
status 200 gives the count 7. -/
theorem status_handling_witness :
    (sampleClaudeNoCache.CountTokens sampleRemote201 sampleWorld "hi").1 =
      .error (.apiStatus 201 "seven") ∧
    (sampleClaudeNoCache.CountTokens sampleRemote sampleWorld "hi").1 = .ok 7 :=
  ⟨(status_handling sampleRemote201 sampleClaudeNoCache sampleWorld "hi" "seven" 201 rfl rfl).2.1
      (by decide),
   (status_handling sampleRemote sampleClaudeNoCache sampleWorld "hi" "seven" 200 rfl rfl).2.2.1
      rfl 7 rfl⟩

/-- C16. Cache failures are downgraded to a miss. When `Cache.Get` returns an error, whatever
it is, `CountTokens` hands the request to the transport and returns what the same adapter
without cache returns; and when the request succeeds with count `n` while `Cache.Set` fails,
`CountTokens` still returns `n` without error. -/
theorem cache_failure_is_miss (env : Remote) (tk : ClaudeTokenizer) (ca : Cache) (w : World)
    (text : String) (e : CacheError) (hcache : tk.cache = some ca)
    (hget : ca.Get env.sha256Hex w.fs (tk.cacheKey text) 0 = .error e) :
    (tk.CountTokens env w text).1 =
      (({ tk with cache := none } : ClaudeTokenizer).CountTokens env w text).1 ∧
    (tk.CountTokens env w text).2.sent = w.sent ++ [tk.request text] ∧
    (∀ (body : String) (n : Int) (err : CacheError),
      env.client w.sent (tk.request text) = .response 200 body →
      env.decodeInputTokens body = some n →
      ca.Set env.sha256Hex w.fs (tk.cacheKey text) n = .error err →
      tk.CountTokens env w text = (.ok n, { w with sent := w.sent ++ [tk.request text] })) := by
  have hmiss := cached_none_of_error env tk ca w text e hcache hget
  obtain ⟨h1, h2⟩ := CountTokens_of_miss env tk w text hmiss
  obtain ⟨h3, _⟩ := CountTokens_of_miss env ({ tk with cache := none } : ClaudeTokenizer) w text
    (cached_none_of_no_cache env _ w text rfl)
  refine ⟨?_, h2, ?_⟩
  · rw [h1, h3]; rfl
  · intro body n err hresp hdec hset
    simp only [ClaudeTokenizer.CountTokens, hmiss, hresp, hdec, hcache, hset, ne_eq,
      not_true_eq_false, if_false]

/-- Witness of C16: the cache directory of the sample adapter does not exist, so `Get` and
`Set` both fail, and `CountTokens` returns the count 7 of the transport. -/
theorem cache_failure_is_miss_witness :
    (sampleClaude.CountTokens sampleRemote sampleWorldNoDir "hi").1 =
      (({ sampleClaude with cache := none } : ClaudeTokenizer).CountTokens sampleRemote
        sampleWorldNoDir "hi").1 ∧
    sampleClaude.CountTokens sampleRemote sampleWorldNoDir "hi" =
      (.ok 7, { sampleWorldNoDir with sent := [] ++ [sampleClaude.request "hi"] }) :=
  ⟨(cache_failure_is_miss sampleRemote sampleClaude { dir := "d" } sampleWorldNoDir "hi"
      .cacheMiss rfl rfl).1,
   (cache_failure_is_miss sampleRemote sampleClaude { dir := "d" } sampleWorldNoDir "hi"
      .cacheMiss rfl rfl).2.2 "seven" 7 .writeFailed rfl rfl rfl⟩

/-! ## Cache keys and clearing -/

theorem split_at_colon (a b x y : List Char) (ha : ':' ∉ a) (hb : ':' ∉ b)
    (h : a ++ ':' :: x = b ++ ':' :: y) : a = b ∧ x = y := by
  induction a generalizing b with
  | nil =>
    cases b with
    | nil => simpa using h
    | cons d b2 =>
      simp only [List.nil_append, List.cons_append, List.cons.injEq] at h
      exact absurd (List.mem_cons.mpr (Or.inl h.1)) hb
  | cons c a2 ih =>
    cases b with
    | nil =>
      simp only [List.nil_append, List.cons_append, List.cons.injEq] at h
      exact absurd (List.mem_cons.mpr (Or.inl h.1.symm)) ha
    | cons d b2 =>
      simp only [List.cons_append, List.cons.injEq] at h
      obtain ⟨hx, hy⟩ := ih b2 (fun hm => ha (List.mem_cons_of_mem _ hm))
        (fun hm => hb (List.mem_cons_of_mem _ hm)) h.2
      exact ⟨by rw [h.1, hx], hy⟩

/-- C19. Cache-key injectivity. For model identifiers that contain no `:` and arbitrary texts,
equal cache keys `"claude:" + model + ":" + text` come from the same model and the same text. -/
theorem cache_key_injective (c1 c2 : ClaudeTokenizer) (t1 t2 : String)
    (h1 : ':' ∉ c1.model.data) (h2 : ':' ∉ c2.model.data)
    (hk : c1.cacheKey t1 = c2.cacheKey t2) : c1.model = c2.model ∧ t1 = t2 := by
  have h := congrArg String.data hk
  simp only [ClaudeTokenizer.cacheKey, String.data_append, List.append_assoc] at h
  have h3 := List.append_cancel_left h
  have h4 : c1.model.data ++ ':' :: t1.data = c2.model.data ++ ':' :: t2.data := h3
  obtain ⟨hm, ht⟩ := split_at_colon _ _ _ _ h1 h2 h4
  exact ⟨String.ext hm, String.ext ht⟩

/-- Witness of C19: the model `m` and a text that contains a colon. -/
theorem cache_key_injective_witness :
    sampleClaude.model = sampleClaudeNoCache.model ∧ "a:b" = "a:b" :=
  cache_key_injective sampleClaude sampleClaudeNoCache "a:b" "a:b" (by decide) (by decide) rfl

/-- C20. `Clear` removes the cache directory and `Set` does not create it again: after a
`Clear`, which returns without error, `Set` fails with the write error for every key and value
(so no `Get` can return the value); a second `Clear` returns without error and changes
nothing. -/
theorem set_after_clear_fails (H : String → String) (c : Cache) (fs : FS) (k : String)
    (v : Int) :
    ∃ fs1, c.Clear fs = .ok fs1 ∧ c.dir ∉ fs1.dirs ∧
      c.Set H fs1 k v = .error .writeFailed ∧
      c.Get H fs1 k 0 = .error .cacheMiss ∧
      c.Clear fs1 = .ok fs1 := by
  have hd : c.dir ∉ (fs.dirs.filter (fun d => decide (d ≠ c.dir))) := by
    simp [List.mem_filter]
  refine ⟨_, rfl, hd, ?_, ?_, ?_⟩
  · have hd2 : ¬ (c.keyToPath H k).dir ∈ (fs.dirs.filter (fun d => decide (d ≠ c.dir))) := hd
    simp only [Cache.Set, FS.writeFile, if_neg hd2]
  · have hd2 : ¬ (c.keyToPath H k).dir ∈ (fs.dirs.filter (fun d => decide (d ≠ c.dir))) := hd
    simp only [Cache.Get, FS.readFile, if_neg hd2]
  · simp only [Cache.Clear, FS.removeAll, List.filter_filter, Bool.and_self]

/-! ## Offsets of the byte-pair and sentencepiece adapters -/

theorem strLen_nonneg (s : String) : 0 ≤ strLen s := Int.ofNat_nonneg _

theorem totalLen_nonneg (toks : List Token) : 0 ≤ totalLen toks := by
  induction toks with
  | nil => simp [totalLen]
  | cons t rest ih =>
    have := strLen_nonneg t.Text
    simp only [totalLen, List.map_cons, List.sum_cons] at ih ⊢
    omega

theorem totalLen_append (a b : List Token) : totalLen (a ++ b) = totalLen a + totalLen b := by
  simp [totalLen, List.sum_append]

theorem laidOut_snoc (toks : List Token) (t : Token) :
    ∀ p, laidOut p toks → t.Start = p + totalLen toks → t.End = t.Start + strLen t.Text →
      laidOut p (toks ++ [t]) := by
  induction toks with
  | nil =>
    intro p _ hs he
    simp only [totalLen, List.map_nil, List.sum_nil, Int.add_zero] at hs
    exact ⟨hs, by rw [he, hs], trivial⟩
  | cons a rest ih =>
    intro p h hs he
    obtain ⟨h1, h2, h3⟩ := h
    refine ⟨h1, h2, ih _ h3 ?_ he⟩
    simp only [totalLen, List.map_cons, List.sum_cons] at hs ⊢
    rw [hs, h2]; omega

theorem foldl_laidOut {α : Type} (f : List Token × Int → α → List Token × Int)
    (hf : ∀ st id, ∃ tok, f st id = (st.1 ++ [tok], st.2 + strLen tok.Text) ∧
      tok.Start = st.2 ∧ tok.End = st.2 + strLen tok.Text) (ids : List α) :
    ∀ st : List Token × Int, laidOut 0 st.1 → st.2 = totalLen st.1 →
      laidOut 0 (ids.foldl f st).1 := by
  induction ids with
  | nil => intro st h _; exact h
  | cons id rest ih =>
    intro st h hp
    obtain ⟨tok, hstep, hs, he⟩ := hf st id
    simp only [List.foldl_cons, hstep]
    apply ih
    · exact laidOut_snoc st.1 tok 0 h (by rw [hs, hp]; omega) (by rw [he, hs])
    · show st.2 + strLen tok.Text = totalLen (st.1 ++ [tok])
      rw [totalLen_append, hp]
      simp [totalLen]

theorem foldl_texts {α : Type} (f : List Token × Int → α → List Token × Int) (dec : α → String)
    (hf : ∀ st id, ∃ tok, f st id = (st.1 ++ [tok], st.2 + strLen tok.Text) ∧
      tok.Text = dec id) (ids : List α) :
    ∀ st : List Token × Int,
      (ids.foldl f st).1.map (fun t => t.Text) = st.1.map (fun t => t.Text) ++ ids.map dec := by
  induction ids with
  | nil => intro st; simp
  | cons id rest ih =>
    intro st
    obtain ⟨tok, hstep, ht⟩ := hf st id
    simp only [List.foldl_cons, hstep, ih, List.map_append, List.map_cons, List.map_nil, ht,
      List.append_assoc, List.singleton_append]

theorem laidOut_index (toks : List Token) :
    ∀ p, laidOut p toks → ∀ i t, toks.get? i = some t →
      t.Start = p + totalLen (toks.take i) ∧ t.End = t.Start + strLen t.Text := by
  induction toks with
  | nil => intro p _ i t h; simp at h
  | cons a rest ih =>
    intro p h i t hget
    obtain ⟨h1, h2, h3⟩ := h
    cases i with
    | zero =>
      simp only [List.get?_cons_zero, Option.some.injEq] at hget
      subst hget
      simp only [List.take_zero, totalLen, List.map_nil, List.sum_nil, Int.add_zero]
      exact ⟨h1, by rw [h2, h1]⟩
    | succ k =>
      simp only [List.get?_cons_succ] at hget
      obtain ⟨hs, he⟩ := ih _ h3 k t hget
      refine ⟨?_, he⟩
      simp only [List.take_succ_cons, totalLen, List.map_cons, List.sum_cons] at hs ⊢
      rw [hs, h2]; omega

theorem totalLen_take_succ (toks : List Token) :
    ∀ i t, toks.get? i = some t →
      totalLen (toks.take (i + 1)) = totalLen (toks.take i) + strLen t.Text := by
  induction toks with
  | nil => intro i t h; simp at h
  | cons a rest ih =>
    intro i t hget
    cases i with
    | zero =>
      simp only [List.get?_cons_zero, Option.some.injEq] at hget
      subst hget
      simp [totalLen]
    | succ k =>
      simp only [List.get?_cons_succ] at hget
      have := ih k t hget
      simp only [List.take_succ_cons, totalLen, List.map_cons, List.sum_cons] at this ⊢
      omega

theorem totalLen_take_mono (toks : List Token) :
    ∀ i j, i ≤ j → totalLen (toks.take i) ≤ totalLen (toks.take j) := by
  induction toks with
  | nil => intro i j _; simp
  | cons a rest ih =>
    intro i j hij
    cases i with
    | zero =>
      simp only [List.take_zero]
      exact totalLen_nonneg _
    | succ k =>
      cases j with
      | zero => omega
      | succ m =>
        have := ih k m (by omega)
        simp only [List.take_succ_cons, totalLen, List.map_cons, List.sum_cons] at this ⊢
        omega

theorem laidOut_accumulate (toks : List Token) (h : laidOut 0 toks) : OffsetsAccumulate toks := by
  have hidx := laidOut_index toks 0 h
  refine ⟨?_, ?_, ?_, ?_, ?_⟩
  · intro t ht
    have := (hidx 0 t ht).1
    simpa [totalLen] using this
  · intro i t ht; exact (hidx i t ht).2
  · intro i t u ht hu
    obtain ⟨hs, he⟩ := hidx i t ht
    obtain ⟨hs2, _⟩ := hidx (i + 1) u hu
    rw [hs2, totalLen_take_succ toks i t ht, he, hs]; omega
  · intro i t ht
    have := (hidx i t ht).1
    omega
  · intro i j t u hij ht hu
    have h1 := (hidx i t ht).1
    have h2 := (hidx j u hu).1
    have := totalLen_take_mono toks i j hij
    omega

theorem tik_step_spec (t : TikTokenizer) (st : List Token × Int) (id : Int) :
    ∃ tok, t.step st id = (st.1 ++ [tok], st.2 + strLen tok.Text) ∧
      tok.Start = st.2 ∧ tok.End = st.2 + strLen tok.Text ∧ tok.Text = t.encoder.Decode [id] :=
  ⟨_, rfl, rfl, rfl, rfl⟩

theorem llama_step_spec (l : LLaMATokenizer) (st : List Token × Int) (id : Nat) :
    ∃ tok, l.step st id = (st.1 ++ [tok], st.2 + strLen tok.Text) ∧
      tok.Start = st.2 ∧ tok.End = st.2 + strLen tok.Text ∧ tok.Text = l.model.Decode [id] :=
  ⟨_, rfl, rfl, rfl, rfl⟩

theorem tik_laidOut (t : TikTokenizer) (ids : List Int) :
    laidOut 0 (ids.foldl t.step ([], 0)).1 :=
  foldl_laidOut t.step
    (fun st id => by
      obtain ⟨tok, h1, h2, h3, _⟩ := tik_step_spec t st id
      exact ⟨tok, h1, h2, h3⟩) ids ([], 0) trivial rfl

theorem llama_laidOut (l : LLaMATokenizer) (ids : List Nat) :
    laidOut 0 (ids.foldl l.step ([], 0)).1 :=
  foldl_laidOut l.step
    (fun st id => by
      obtain ⟨tok, h1, h2, h3, _⟩ := llama_step_spec l st id
      exact ⟨tok, h1, h2, h3⟩) ids ([], 0) trivial rfl

/-- C17. Offset accumulation. For every text and every id sequence the engine returns, the
tokens of `TikTokenizer.Encode` and of `LLaMATokenizer.Encode` start at 0, each ends its byte
length after its start, each starts where the one before ends, the start of a token is the
summed byte length of the earlier token texts, and the starts never decrease. -/
theorem offset_accumulation :
    (∀ (t : TikTokenizer) (text : String),
      ∃ r, t.Encode text = .ok r ∧ OffsetsAccumulate r.Tokens) ∧
    (∀ (l : LLaMATokenizer) (text : String),
      ∃ r, l.Encode text = .ok r ∧ OffsetsAccumulate r.Tokens) :=
  ⟨fun t _ => ⟨_, rfl, laidOut_accumulate _ (tik_laidOut t _)⟩,
   fun l _ => ⟨_, rfl, laidOut_accumulate _ (llama_laidOut l _)⟩⟩

/-! ## Reconstruction of the text -/

theorem goBytes_append (a b : String) : goBytes (a ++ b) = goBytes a ++ goBytes b := by
  simp [goBytes, String.data_append]

theorem goBytes_length (s : String) : ((goBytes s).length : Int) = strLen s := by
  obtain ⟨cs⟩ := s
  simp only [goBytes, strLen, String.utf8ByteSize_mk]
  induction cs with
  | nil => simp
  | cons c rest ih =>
    simp only [List.map_cons, List.flatten_cons, List.length_append,
      String.length_utf8EncodeChar, String.utf8Len_cons, Nat.cast_add] at ih ⊢
    omega

theorem strLen_append (a b : String) : strLen (a ++ b) = strLen a + strLen b := by
  rw [← goBytes_length, ← goBytes_length, ← goBytes_length, goBytes_append]
  simp

theorem strLen_concat_texts (toks : List Token) :
    strLen (concatStrings (toks.map (fun t => t.Text))) = totalLen toks := by
  induction toks with
  | nil => rfl
  | cons a rest ih =>
    simp only [List.map_cons, concatStrings, strLen_append, ih, totalLen, List.sum_cons]

theorem drop_take_middle (pre mid post : List UInt8) (n m : Nat) (hn : n = pre.length)
    (hm : m = mid.length) : ((pre ++ (mid ++ post)).drop n).take m = mid := by
  subst hn; subst hm
  simp

theorem byteSlice_middle (pre mid post : String) :
    byteSlice (pre ++ (mid ++ post)) (strLen pre) (strLen pre + strLen mid) =
      some (goBytes mid) := by
  have h1 := strLen_nonneg pre
  have h2 := strLen_nonneg mid
  have h3 := strLen_nonneg post
  have hcond : 0 ≤ strLen pre ∧ strLen pre ≤ strLen pre + strLen mid ∧
      strLen pre + strLen mid ≤ strLen (pre ++ (mid ++ post)) := by
    rw [strLen_append, strLen_append]; omega
  unfold byteSlice
  rw [if_pos hcond, goBytes_append, goBytes_append]
  congr 1
  apply drop_take_middle
  · have := goBytes_length pre
    omega
  · have := goBytes_length mid
    omega

theorem laidOut_slices (toks : List Token) :
    ∀ pre : String, laidOut (strLen pre) toks → ∀ i t, toks.get? i = some t →
      byteSlice (pre ++ concatStrings (toks.map (fun u => u.Text))) t.Start t.End =
        some (goBytes t.Text) := by
  induction toks with
  | nil => intro pre _ i t h; simp at h
  | cons a rest ih =>
    intro pre h i t hget
    obtain ⟨h1, h2, h3⟩ := h
    cases i with
    | zero =>
      simp only [List.get?_cons_zero, Option.some.injEq] at hget
      subst hget
      simp only [List.map_cons, concatStrings]
      rw [h1, h2]
      exact byteSlice_middle pre a.Text _
    | succ k =>
      simp only [List.get?_cons_succ] at hget
      have h4 : laidOut (strLen (pre ++ a.Text)) rest := by
        rw [strLen_append, ← h2]; exact h3
      have := ih (pre ++ a.Text) h4 k t hget
      simp only [List.map_cons, concatStrings]
      rw [← String.append_assoc]
      exact this

theorem laidOut_last (toks : List Token) :
    ∀ p, laidOut p toks → ∀ t, toks.getLast? = some t → t.End = p + totalLen toks := by
  induction toks with
  | nil => intro p _ t h; simp at h
  | cons a rest ih =>
    intro p h t hlast
    obtain ⟨h1, h2, h3⟩ := h
    cases rest with
    | nil =>
      simp only [List.getLast?_singleton, Option.some.injEq] at hlast
      subst hlast
      simp [totalLen, h2]
    | cons b rest2 =>
      rw [List.getLast?_cons_cons] at hlast
      have := ih _ h3 t hlast
      simp only [totalLen, List.map_cons, List.sum_cons] at this ⊢
      rw [this, h2]; omega

theorem laidOut_reconstructs (toks : List Token) (text : String) (h : laidOut 0 toks)
    (hc : concatStrings (toks.map (fun t => t.Text)) = text) : Reconstructs toks text := by
  refine ⟨hc, ?_, ?_⟩
  · intro t hlast
    rw [laidOut_last toks 0 h t hlast, ← hc, strLen_concat_texts]; omega
  · intro i t hget
    have h0 : laidOut (strLen "") toks := h
    have := laidOut_slices toks "" h0 i t hget
    rw [hc] at this
    have he : "" ++ text = text := String.ext (by simp)
    rw [he] at this
    exact this

theorem tik_texts (t : TikTokenizer) (ids : List Int) :
    (ids.foldl t.step ([], 0)).1.map (fun u => u.Text) =
      ids.map (fun id => t.encoder.Decode [id]) := by
  have := foldl_texts t.step (fun id => t.encoder.Decode [id])
    (fun st id => by
      obtain ⟨tok, h1, _, _, h4⟩ := tik_step_spec t st id
      exact ⟨tok, h1, h4⟩) ids ([], 0)
  simpa using this

theorem llama_texts (l : LLaMATokenizer) (ids : List Nat) :
    (ids.foldl l.step ([], 0)).1.map (fun u => u.Text) =
      ids.map (fun id => l.model.Decode [id]) := by
  have := foldl_texts l.step (fun id => l.model.Decode [id])
    (fun st id => by
      obtain ⟨tok, h1, _, _, h4⟩ := llama_step_spec l st id
      exact ⟨tok, h1, h4⟩) ids ([], 0)
  simpa using this

/-- C18. Reconstruction. For every text, the texts of the tokens of `TikTokenizer.Encode` and
of `LLaMATokenizer.Encode`, concatenated in order, are the concatenation of the single-id
decodings of the ids the engine returned; whenever those decodings concatenate to the text, the
token texts reproduce the text, the last token ends at the byte length of the text, and the byte
slice of the text between `Start` and `End` of a token is the text of that token. -/
theorem reconstruction :
    (∀ (t : TikTokenizer) (text : String), ∃ r, t.Encode text = .ok r ∧
      concatStrings (r.Tokens.map (fun u => u.Text)) =
        concatStrings ((t.encoder.Encode text).map (fun id => t.encoder.Decode [id])) ∧
      (concatStrings ((t.encoder.Encode text).map (fun id => t.encoder.Decode [id])) = text →
        Reconstructs r.Tokens text)) ∧
    (∀ (l : LLaMATokenizer) (text : String), ∃ r, l.Encode text = .ok r ∧
      concatStrings (r.Tokens.map (fun u => u.Text)) =
        concatStrings ((l.model.Encode text).map (fun id => l.model.Decode [id])) ∧
      (concatStrings ((l.model.Encode text).map (fun id => l.model.Decode [id])) = text →
        Reconstructs r.Tokens text)) := by
  constructor
  · intro t text
    refine ⟨_, rfl, ?_, ?_⟩
    · simp only [tik_texts]
    · intro h
      exact laidOut_reconstructs _ text (tik_laidOut t _) (by simp only [tik_texts]; exact h)
  · intro l text
    refine ⟨_, rfl, ?_, ?_⟩
    · simp only [llama_texts]
    · intro h
      exact laidOut_reconstructs _ text (llama_laidOut l _) (by simp only [llama_texts]; exact h)

/-- Witness of C18: the sample engines split `abc` into `ab` and `c`, so their tokens
reconstruct `abc`. -/
theorem reconstruction_witness :
    (∃ r, sampleTik.Encode "abc" = .ok r ∧ Reconstructs r.Tokens "abc") ∧
    (∃ r, sampleLLaMA.Encode "abc" = .ok r ∧ Reconstructs r.Tokens "abc") :=
  ⟨(reconstruction.1 sampleTik "abc").imp (fun _ h => ⟨h.1, h.2.2 (by decide)⟩),
   (reconstruction.2 sampleLLaMA "abc").imp (fun _ h => ⟨h.1, h.2.2 (by decide)⟩)⟩

/-! ## Palette -/

theorem filter_flatten_enumFrom_one {α β : Type} (P : β → Bool) (f : Nat → α → List β)
    (g : Nat → α → β) (h : ∀ i a, (f i a).filter P = [g i a]) (l : List α) :
    ∀ n, ((l.enumFrom n).map (fun p => f p.1 p.2)).flatten.filter P =
      (l.enumFrom n).map (fun p => g p.1 p.2) := by
  induction l with
  | nil => intro n; rfl
  | cons a t ih =>
    intro n
    simp only [List.enumFrom_cons, List.map_cons, List.flatten_cons, List.filter_append, h,
      ih (n + 1), List.singleton_append]

theorem terminal_tokenWrites_token (lg : Lipgloss) (r : TerminalRenderer) (n i : Nat)
    (token : Token) :
    (TerminalRenderer.tokenWrites lg r n i token).filter (fun p => decide (p.part = .token)) =
      [{ part := .token, text := lg.Render (tokenStyle i) token.Text }] := by
  unfold TerminalRenderer.tokenWrites
  cases r.showIDs <;> cases r.showBoundaries <;> by_cases h1 : (i : Int) < (n : Int) - 1 <;>
    by_cases h2 : 0 ≤ token.ID <;> simp [h1, h2]

theorem terminal_columnTokenWrites_token (lg : Lipgloss) (r : TerminalRenderer) (i : Nat)
    (token : Token) :
    (TerminalRenderer.columnTokenWrites lg r i token).filter
        (fun p => decide (p.part = .token)) =
      [{ part := .token,
         text := lg.Render (tokenStyle i) (output (TerminalRenderer.columnTokenParts r token)) }] := by
  unfold TerminalRenderer.columnTokenWrites
  cases r.showIDs <;> by_cases h2 : 0 ≤ token.ID <;> simp [h2]

theorem html_tokenWrites_token (r : HTMLInlineRenderer) (i : Nat) (token : Token) :
    (HTMLInlineRenderer.tokenWrites r i token).filter (fun p => decide (p.part = .token)) =
      [{ part := .token,
         text := "<span class=\"token token-" ++ fmtInt ((i % 8 : Nat) : Int) ++ "\">"
           ++ escapeHTML token.Text ++ "</span>" }] := by
  unfold HTMLInlineRenderer.tokenWrites
  cases r.showIDs <;> cases r.showBoundaries <;> by_cases h1 : 0 < i <;> simp [h1] <;> rfl

theorem html_resultWrites_token (r : HTMLInlineRenderer) (result : TokenizationResult) :
    (HTMLInlineRenderer.resultWrites r result).filter (fun p => decide (p.part = .token)) =
      result.Tokens.enum.map (fun p =>
        { part := .token,
          text := "<span class=\"token token-" ++ fmtInt ((p.1 % 8 : Nat) : Int) ++ "\">"
            ++ escapeHTML p.2.Text ++ "</span>" }) := by
  simp only [HTMLInlineRenderer.resultWrites, List.filter_append, List.enum]
  rw [filter_flatten_enumFrom_one _ _ _ (fun i a => html_tokenWrites_token r i a)]
  simp [List.filter]

/-- C12. Palette cycling. Both palettes have 8 entries. The Terminal renderer styles the token
at position `i` with the bold foreground `tokenColors[i mod 8]`, in `RenderSingle` and in
`renderColumn`; the HTML renderer gives it the class `token-k` with `k = i mod 8`, in
`RenderSingle` and in `RenderComparison`. The index `i mod 8` is below 8 for every `i`, and it
is the same index in both renderers. The strings the four methods return are given in full:
the text of the token at position `i` is rendered with `tokenStyle i`, respectively wrapped in
the span of class `token-(i mod 8)`. -/
theorem palette_cycling (lg : Lipgloss) (tr : TerminalRenderer) (hr : HTMLInlineRenderer) :
    tokenColors.length = 8 ∧ htmlTokenColors.length = 8 ∧
    (∀ result : TokenizationResult,
      TerminalRenderer.RenderSingle lg tr result =
        output (TerminalRenderer.RenderSingleWrites lg tr result) ∧
      TerminalRenderer.renderColumn lg tr result =
        lg.Render columnStyle (output (TerminalRenderer.columnWrites lg tr result)) ∧
      HTMLInlineRenderer.RenderSingle hr result =
        output (HTMLInlineRenderer.RenderSingleWrites hr result)) ∧
    (∀ results : List TokenizationResult,
      HTMLInlineRenderer.RenderComparison hr results =
        output (HTMLInlineRenderer.RenderComparisonWrites hr results)) ∧
    (∀ result : TokenizationResult,
      TerminalRenderer.RenderSingle lg tr result =
        lg.Render headerStyle ("🔤 " ++ result.Model) ++ ("\n\n" ++
          (lg.Render statsStyle ("Total tokens: " ++ fmtInt result.TotalCount) ++ ("\n\n" ++
            (concatStrings (result.Tokens.enum.map (fun p =>
              lg.Render (tokenStyle p.1) p.2.Text ++
                ((if tr.showBoundaries = true ∧ p.1 + 1 < result.Tokens.length then
                    lg.Render (NewStyle.Foreground "238") "|" else "") ++
                 (if tr.showIDs = true ∧ 0 ≤ p.2.ID then
                    lg.Render tokenIDStyle ("[" ++ fmtInt p.2.ID ++ "]") else "")))) ++
              "\n"))))) ∧
    (∀ result : TokenizationResult,
      TerminalRenderer.renderColumn lg tr result =
        lg.Render columnStyle
          (lg.Render (((NewStyle.Bold true).Foreground "86").Underline true) result.Model ++
            ("\n\n" ++ (lg.Render statsStyle ("Tokens: " ++ fmtInt result.TotalCount) ++
              ("\n\n" ++
              concatStrings (result.Tokens.enum.map (fun p =>
                lg.Render (tokenStyle p.1)
                    (if tr.showBoundaries = true then "[" ++ p.2.Text ++ "]" else p.2.Text) ++
                  ((if tr.showIDs = true ∧ 0 ≤ p.2.ID then
                      lg.Render tokenIDStyle ("(" ++ fmtInt p.2.ID ++ ")") else "") ++
                    "\n")))))))) ∧
    (∀ result : TokenizationResult,
      HTMLInlineRenderer.RenderSingle hr result =
        "<!DOCTYPE html>\n<html>\n<head>\n" ++ ("<meta charset=\"UTF-8\">\n" ++
          ("<meta name=\"viewport\" content=\"width=device-width, initial-scale=1.0\">\n" ++
            ("<title>Token Visualization</title>\n" ++ (hr.generateCSS ++
              ("</head>\n<body>\n<div class=\"container\">\n" ++
                (("<div class=\"model-header\">" ++ escapeHTML result.Model ++ "</div>\n" ++
                  ("<div class=\"token-count\">Total tokens: " ++ fmtInt result.TotalCount
                      ++ "</div>\n" ++
                    ("<div class=\"tokens\">\n" ++
                      (concatStrings (result.Tokens.enum.map (fun p =>
                        (if hr.showBoundaries = true ∧ 0 < p.1 then
                            "<span class=\"boundary\">|</span>" else "") ++
                          ("<span class=\"token token-" ++ fmtInt ((p.1 % 8 : Nat) : Int) ++ "\">"
                              ++ escapeHTML p.2.Text ++ "</span>" ++
                            (if hr.showIDs = true then
                              "<span class=\"token-id\">[" ++ fmtInt p.2.ID ++ "]</span>"
                             else "")))) ++
                        "\n</div>\n")))) ++
                  "</div>\n</body>\n</html>\n"))))))) ∧
    (∀ results : List TokenizationResult,
      HTMLInlineRenderer.RenderComparison hr results =
        "<!DOCTYPE html>\n<html>\n<head>\n" ++ ("<meta charset=\"UTF-8\">\n" ++
          ("<meta name=\"viewport\" content=\"width=device-width, initial-scale=1.0\">\n" ++
            ("<title>Token Comparison</title>\n" ++ (hr.generateCSS ++
              ("</head>\n<body>\n<div class=\"container\">\n" ++
                ("<div class=\"comparison-container\">\n" ++
                  (concatStrings (results.map (fun result =>
                    "<div class=\"comparison-model\">\n" ++
                      (("<div class=\"model-header\">" ++ escapeHTML result.Model ++ "</div>\n" ++
                        ("<div class=\"token-count\">Total tokens: " ++ fmtInt result.TotalCount
                            ++ "</div>\n" ++
                          ("<div class=\"tokens\">\n" ++
                            (concatStrings (result.Tokens.enum.map (fun p =>
                              (if hr.showBoundaries = true ∧ 0 < p.1 then
                                  "<span class=\"boundary\">|</span>" else "") ++
                                ("<span class=\"token token-" ++ fmtInt ((p.1 % 8 : Nat) : Int)
                                    ++ "\">" ++ escapeHTML p.2.Text ++ "</span>" ++
                                  (if hr.showIDs = true then
                                    "<span class=\"token-id\">[" ++ fmtInt p.2.ID ++ "]</span>"
                                   else "")))) ++
                              "\n</div>\n")))) ++
                        "</div>\n"))) ++
                    ("</div>\n" ++ "</div>\n</body>\n</html>\n"))))))))) ∧
    (∀ i : Nat, i % 8 < 8 ∧ ∃ c, tokenColors.get? (i % 8) = some c ∧
      tokenStyle i = (NewStyle.Foreground c).Bold true) ∧
    (∀ result : TokenizationResult,
      (TerminalRenderer.RenderSingleWrites lg tr result).filter
          (fun p => decide (p.part = .token)) =
        result.Tokens.enum.map (fun p =>
          { part := .token, text := lg.Render (tokenStyle p.1) p.2.Text })) ∧
    (∀ result : TokenizationResult,
      (TerminalRenderer.columnWrites lg tr result).filter
          (fun p => decide (p.part = .token)) =
        result.Tokens.enum.map (fun p =>
          { part := .token,
            text := lg.Render (tokenStyle p.1)
              (output (TerminalRenderer.columnTokenParts tr p.2)) })) ∧
    (∀ result : TokenizationResult,
      (HTMLInlineRenderer.RenderSingleWrites hr result).filter
          (fun p => decide (p.part = .token)) =
        result.Tokens.enum.map (fun p =>
          { part := .token,
            text := "<span class=\"token token-" ++ fmtInt ((p.1 % 8 : Nat) : Int) ++ "\">"
              ++ escapeHTML p.2.Text ++ "</span>" })) ∧
    (∀ results : List TokenizationResult,
      (HTMLInlineRenderer.RenderComparisonWrites hr results).filter
          (fun p => decide (p.part = .token)) =
        (results.map (fun result => result.Tokens.enum.map (fun p =>
          ({ part := .token,
             text := "<span class=\"token token-" ++ fmtInt ((p.1 % 8 : Nat) : Int) ++ "\">"
               ++ escapeHTML p.2.Text ++ "</span>" } : Piece)))).flatten) := by
  refine ⟨rfl, rfl, fun result => ⟨rfl, rfl, rfl⟩, fun results => rfl,
    fun result => terminal_RenderSingle_string lg tr result,
    fun result => terminal_renderColumn_string lg tr result,
    fun result => html_RenderSingle_closed hr result,
    fun results => html_RenderComparison_closed hr results, ?_, ?_, ?_, ?_, ?_⟩
  · intro i
    have hlt : i % 8 < tokenColors.length := Nat.mod_lt i (by decide)
    exact ⟨Nat.mod_lt i (by decide), tokenColors.get ⟨i % 8, hlt⟩, List.get?_eq_get hlt, rfl⟩
  · intro result
    simp only [TerminalRenderer.RenderSingleWrites, List.filter_append, List.enum]
    rw [filter_flatten_enumFrom_one _ _ _
      (fun i a => terminal_tokenWrites_token lg tr result.Tokens.length i a)]
    simp [List.filter]
  · intro result
    simp only [TerminalRenderer.columnWrites, List.filter_append, List.enum]
    rw [filter_flatten_enumFrom_one _ _ _
      (fun i a => terminal_columnTokenWrites_token lg tr i a)]
    simp [List.filter]
  · intro result
    simp only [HTMLInlineRenderer.RenderSingleWrites, List.filter_append,
      html_resultWrites_token]
    simp [List.filter]
  · intro results
    simp only [HTMLInlineRenderer.RenderComparisonWrites, List.filter_append]
    have hmid : ∀ rs : List TokenizationResult,
        ((rs.map (fun result =>
          [({ part := .markup, text := "<div class=\"comparison-model\">\n" } : Piece)]
          ++ HTMLInlineRenderer.resultWrites hr result
          ++ [{ part := .markup, text := "</div>\n" }])).flatten).filter
            (fun p => decide (p.part = .token)) =
        (rs.map (fun result => result.Tokens.enum.map (fun p =>
          ({ part := .token,
             text := "<span class=\"token token-" ++ fmtInt ((p.1 % 8 : Nat) : Int) ++ "\">"
               ++ escapeHTML p.2.Text ++ "</span>" } : Piece)))).flatten := by
      intro rs
      induction rs with
      | nil => rfl
      | cons a t ih =>
        simp only [List.map_cons, List.flatten_cons, List.filter_append, ih,
          html_resultWrites_token]
        simp [List.filter]
    rw [hmid]
    simp [List.filter]

/-! ## Boundary markers of the single-result views -/

theorem conflicts_not_isPrefixOf (pat t : List Char) (h : conflicts pat t = true) :
    ∀ rest, pat.isPrefixOf (t ++ rest) = false := by
  induction pat generalizing t with
  | nil => simp [conflicts] at h
  | cons p ps ih =>
    cases t with
    | nil => simp [conflicts] at h
    | cons c cs =>
      intro rest
      simp only [conflicts, Bool.or_eq_true, bne_iff_ne, ne_eq] at h
      simp only [List.cons_append, List.isPrefixOf, Bool.and_eq_false_imp, beq_iff_eq]
      intro hpc
      rcases h with h | h
      · exact absurd hpc h
      · exact ih cs h rest

theorem tagFree_occurrences (pat t : List Char) (h : tagFree pat t = true) :
    ∀ rest, occurrences pat (t ++ rest) = occurrences pat rest := by
  induction t with
  | nil => intro rest; rfl
  | cons c cs ih =>
    intro rest
    simp only [tagFree, Bool.and_eq_true] at h
    have hno := conflicts_not_isPrefixOf pat (c :: cs) h.1 rest
    show (if pat.isPrefixOf (c :: cs ++ rest) = true then 1 else 0)
      + occurrences pat (cs ++ rest) = occurrences pat rest
    rw [hno, ih h.2 rest]
    simp

theorem tagFree_of_no_lt (t : List Char) (h : ∀ c ∈ t, c ≠ '<') :
    tagFree boundaryTag.data t = true := by
  induction t with
  | nil => rfl
  | cons c cs ih =>
    have hc : c ≠ '<' := h c (List.mem_cons_self _ _)
    have hcs := ih (fun d hd => h d (List.mem_cons_of_mem _ hd))
    simp only [tagFree, Bool.and_eq_true]
    refine ⟨?_, hcs⟩
    show (('<' != c) || _) = true
    simp [Ne.symm hc]

theorem escapeHTMLChar_no_lt (a : Char) : ∀ c ∈ (escapeHTMLChar a).data, c ≠ '<' := by
  intro c hc
  unfold escapeHTMLChar at hc
  split at hc
  · revert hc; revert c; decide
  · split at hc
    · revert hc; revert c; decide
    · split at hc
      · revert hc; revert c; decide
      · split at hc
        · revert hc; revert c; decide
        · split at hc
          · revert hc; revert c; decide
          · rename_i h3 _ _
            have hd : (String.singleton a).data = [a] := rfl
            rw [hd, List.mem_singleton] at hc
            rw [hc]; exact h3

theorem escapeHTML_no_lt (s : String) : ∀ c ∈ (escapeHTML s).data, c ≠ '<' := by
  obtain ⟨cs⟩ := s
  simp only [escapeHTML]
  induction cs with
  | nil => intro c hc; simp [concatStrings] at hc
  | cons a rest ih =>
    intro c hc
    simp only [List.map_cons, concatStrings, String.data_append, List.mem_append] at hc
    rcases hc with hc | hc
    · exact escapeHTMLChar_no_lt a c hc
    · exact ih c hc

theorem fmtInt_no_lt (v : Int) : ∀ c ∈ (fmtInt v).data, c ≠ '<' := by
  intro c hc
  rcases intToDecimal_chars v c hc with h | h
  · intro he; rw [he] at h; revert h; decide
  · rw [h]; decide

theorem addsTags_of_tagFree (t : List Char) (h : tagFree boundaryTag.data t = true) :
    addsTags 0 t := by
  intro rest
  rw [tagFree_occurrences _ t h rest]; simp

theorem addsTags_append (j k : Nat) (a b : List Char) (ha : addsTags j a) (hb : addsTags k b) :
    addsTags (j + k) (a ++ b) := by
  intro rest
  rw [List.append_assoc, ha, hb]; omega

theorem addsTags_escapeHTML (s : String) : addsTags 0 (escapeHTML s).data :=
  addsTags_of_tagFree _ (tagFree_of_no_lt _ (escapeHTML_no_lt s))

theorem addsTags_fmtInt (v : Int) : addsTags 0 (fmtInt v).data :=
  addsTags_of_tagFree _ (tagFree_of_no_lt _ (fmtInt_no_lt v))

theorem addsTags_boundary :
    addsTags 1 ("<span class=\"boundary\">|</span>" : String).data := by
  intro rest
  have htail : tagFree boundaryTag.data ("span class=\"boundary\">|</span>" : String).data = true := by
    decide
  have hhead : boundaryTag.data.isPrefixOf
      (("<span class=\"boundary\">|</span>" : String).data ++ rest) = true := by
    simp [boundaryTag, List.isPrefixOf]
  show (if boundaryTag.data.isPrefixOf
      (("<span class=\"boundary\">|</span>" : String).data ++ rest) = true then 1 else 0)
    + occurrences boundaryTag.data
        (("span class=\"boundary\">|</span>" : String).data ++ rest) = _
  rw [hhead, tagFree_occurrences _ _ htail rest]
  simp

theorem addsTags_output (ps : List Piece) (h : ∀ p ∈ ps, addsTags (tagsOf p) p.text.data) :
    addsTags (ps.filter (fun p => decide (p.part = .boundary))).length (output ps).data := by
  induction ps with
  | nil => intro rest; simp [output]
  | cons p t ih =>
    have hp := h p (List.mem_cons_self _ _)
    have ht := ih (fun q hq => h q (List.mem_cons_of_mem _ hq))
    have := addsTags_append _ _ _ _ hp ht
    simp only [output, String.data_append]
    by_cases hb : p.part = .boundary
    · simp only [List.filter, hb, decide_True, List.length_cons]
      simp only [tagsOf, hb, if_true] at this
      rw [Nat.add_comm]; exact this
    · simp only [List.filter, hb, decide_False]
      simp only [tagsOf, hb, if_false, Nat.zero_add] at this
      exact this

set_option maxRecDepth 100000 in
theorem addsTags_generateCSS (r : HTMLInlineRenderer) : addsTags 0 r.generateCSS.data := by
  apply addsTags_of_tagFree
  unfold HTMLInlineRenderer.generateCSS
  decide

theorem html_tokenWrites_tags (r : HTMLInlineRenderer) (i : Nat) (token : Token) :
    ∀ p ∈ HTMLInlineRenderer.tokenWrites r i token, addsTags (tagsOf p) p.text.data := by
  intro p hp
  have hb : addsTags 1 ("<span class=\"boundary\">|</span>" : String).data := addsTags_boundary
  have ht : addsTags 0
      ("<span class=\"token token-" ++ fmtInt ((i % htmlTokenColors.length : Nat) : Int)
          ++ "\">" ++ escapeHTML token.Text ++ "</span>").data := by
    simp only [String.data_append]
    exact addsTags_append 0 0 _ _ (addsTags_append 0 0 _ _ (addsTags_append 0 0 _ _
      (addsTags_append 0 0 _ _ (addsTags_of_tagFree _ (by decide)) (addsTags_fmtInt _))
      (addsTags_of_tagFree _ (by decide))) (addsTags_escapeHTML _))
      (addsTags_of_tagFree _ (by decide))
  have hi : addsTags 0
      ("<span class=\"token-id\">[" ++ fmtInt token.ID ++ "]</span>").data := by
    simp only [String.data_append]
    exact addsTags_append 0 0 _ _ (addsTags_append 0 0 _ _
      (addsTags_of_tagFree _ (by decide)) (addsTags_fmtInt _))
      (addsTags_of_tagFree _ (by decide))
  unfold HTMLInlineRenderer.tokenWrites at hp
  simp only [List.mem_append, List.mem_singleton] at hp
  rcases hp with (hp | hp) | hp
  · split at hp
    · rw [List.mem_singleton] at hp; rw [hp]; exact hb
    · simp at hp
  · rw [hp]; exact ht
  · split at hp
    · rw [List.mem_singleton] at hp; rw [hp]; exact hi
    · simp at hp

theorem html_resultWrites_tags (r : HTMLInlineRenderer) (result : TokenizationResult) :
    ∀ p ∈ HTMLInlineRenderer.resultWrites r result, addsTags (tagsOf p) p.text.data := by
  intro p hp
  unfold HTMLInlineRenderer.resultWrites at hp
  simp only [List.mem_append, List.mem_cons, List.mem_singleton, List.not_mem_nil, or_false,
    List.mem_flatten, List.mem_map] at hp
  rcases hp with ((hp | hp | hp) | ⟨l, ⟨q, _, hl⟩, hp⟩) | hp
  · rw [hp]
    simp only [String.data_append]
    exact addsTags_append 0 0 _ _ (addsTags_append 0 0 _ _
      (addsTags_of_tagFree _ (by decide)) (addsTags_escapeHTML _))
      (addsTags_of_tagFree _ (by decide))
  · rw [hp]
    simp only [String.data_append]
    exact addsTags_append 0 0 _ _ (addsTags_append 0 0 _ _
      (addsTags_of_tagFree _ (by decide)) (addsTags_fmtInt _))
      (addsTags_of_tagFree _ (by decide))
  · rw [hp]; exact addsTags_of_tagFree _ (by decide)
  · rw [← hl] at hp
    exact html_tokenWrites_tags r q.1 q.2 p hp
  · rw [hp]; exact addsTags_of_tagFree _ (by decide)

theorem html_RenderSingleWrites_tags (r : HTMLInlineRenderer) (result : TokenizationResult) :
    ∀ p ∈ HTMLInlineRenderer.RenderSingleWrites r result, addsTags (tagsOf p) p.text.data := by
  intro p hp
  unfold HTMLInlineRenderer.RenderSingleWrites at hp
  simp only [List.mem_append, List.mem_cons, List.mem_singleton, List.not_mem_nil,
    or_false] at hp
  rcases hp with ((hp | hp | hp | hp | hp | hp) | hp) | hp
  · rw [hp]; exact addsTags_of_tagFree _ (by decide)
  · rw [hp]; exact addsTags_of_tagFree _ (by decide)
  · rw [hp]; exact addsTags_of_tagFree _ (by decide)
  · rw [hp]; exact addsTags_of_tagFree _ (by decide)
  · rw [hp]; exact addsTags_generateCSS r
  · rw [hp]; exact addsTags_of_tagFree _ (by decide)
  · exact html_resultWrites_tags r result p hp
  · rw [hp]; exact addsTags_of_tagFree _ (by decide)

theorem parts_flatten_enumFrom {α : Type} (P : Piece → Bool) (f : Nat → α → List Piece)
    (F : Nat → List Part) (h : ∀ i a, ((f i a).filter P).map (fun p => p.part) = F i)
    (l : List α) :
    ∀ k, ((((l.enumFrom k).map (fun p => f p.1 p.2)).flatten).filter P).map (fun p => p.part) =
      ((l.enumFrom k).map (fun p => F p.1)).flatten := by
  induction l with
  | nil => intro k; rfl
  | cons a t ih =>
    intro k
    simp only [List.enumFrom_cons, List.map_cons, List.flatten_cons, List.filter_append,
      List.map_append, h, ih (k + 1)]

theorem terminal_tokenWrites_parts (lg : Lipgloss) (r : TerminalRenderer) (n i : Nat)
    (token : Token) :
    ((TerminalRenderer.tokenWrites lg r n i token).filter
        (fun p => decide (p.part = .token ∨ p.part = .boundary))).map (fun p => p.part) =
      Part.token :: (if (r.showBoundaries && decide ((i : Int) < (n : Int) - 1)) = true
        then [Part.boundary] else []) := by
  unfold TerminalRenderer.tokenWrites
  cases r.showIDs <;> cases r.showBoundaries <;> by_cases h1 : (i : Int) < (n : Int) - 1 <;>
    by_cases h2 : 0 ≤ token.ID <;> simp [h1, h2]

theorem html_tokenWrites_parts (r : HTMLInlineRenderer) (i : Nat) (token : Token) :
    ((HTMLInlineRenderer.tokenWrites r i token).filter
        (fun p => decide (p.part = .token ∨ p.part = .boundary))).map (fun p => p.part) =
      (if (r.showBoundaries && decide (i > 0)) = true then [Part.boundary] else [])
        ++ [Part.token] := by
  unfold HTMLInlineRenderer.tokenWrites
  cases r.showIDs <;> cases r.showBoundaries <;> by_cases h1 : 0 < i <;> simp [h1]

theorem terminal_alternation (α : Type) (n : Nat) (l : List α) :
    ∀ k, k + l.length = n →
      ((l.enumFrom k).map (fun p => Part.token ::
        (if (true && decide ((p.1 : Int) < (n : Int) - 1)) = true then [Part.boundary]
          else []))).flatten =
      (List.replicate l.length Part.token).intersperse Part.boundary := by
  induction l with
  | nil => intro k _; rfl
  | cons a t ih =>
    intro k hk
    cases t with
    | nil =>
      simp only [List.length_singleton] at hk
      have : ¬ ((k : Int) < (n : Int) - 1) := by omega
      simp [List.enumFrom, this, List.replicate, List.intersperse]
    | cons b t2 =>
      simp only [List.length_cons] at hk
      have hlt : (k : Int) < (n : Int) - 1 := by omega
      have := ih (k + 1) (by simp only [List.length_cons]; omega)
      simp only [List.enumFrom_cons, List.map_cons, List.flatten_cons, List.length_cons,
        List.replicate, List.intersperse] at this ⊢
      rw [this]
      simp [hlt]

theorem html_alternation_tail (α : Type) (l : List α) :
    ∀ k, 0 < k →
      ((l.enumFrom k).map (fun p =>
        (if (true && decide (p.1 > 0)) = true then [Part.boundary] else [])
          ++ [Part.token])).flatten =
      (List.replicate l.length [Part.boundary, Part.token]).flatten := by
  induction l with
  | nil => intro k _; rfl
  | cons a t ih =>
    intro k hk
    simp only [List.enumFrom_cons, List.map_cons, List.flatten_cons, List.length_cons,
      List.replicate, ih (k + 1) (by omega)]
    simp [hk]

theorem intersperse_replicate (m : Nat) :
    (List.replicate (m + 1) Part.token).intersperse Part.boundary =
      Part.token :: (List.replicate m [Part.boundary, Part.token]).flatten := by
  induction m with
  | zero => rfl
  | succ j ih =>
    simp only [List.replicate, List.intersperse, List.flatten_cons] at ih ⊢
    rw [ih]
    simp

theorem html_alternation (α : Type) (l : List α) :
    ((l.enumFrom 0).map (fun p =>
      (if (true && decide (p.1 > 0)) = true then [Part.boundary] else [])
        ++ [Part.token])).flatten =
    (List.replicate l.length Part.token).intersperse Part.boundary := by
  cases l with
  | nil => rfl
  | cons a t =>
    simp only [List.enumFrom_cons, List.map_cons, List.flatten_cons, List.length_cons,
      intersperse_replicate, html_alternation_tail α t 1 (by omega)]
    simp

theorem no_alternation (α : Type) (l : List α) (F : Nat → List Part)
    (hF : ∀ i, F i = [Part.token]) :
    ∀ k, ((l.enumFrom k).map (fun p => F p.1)).flatten = List.replicate l.length Part.token := by
  induction l with
  | nil => intro k; rfl
  | cons a t ih =>
    intro k
    have := ih (k + 1)
    simp only [hF] at this
    simp only [List.enumFrom_cons, List.map_cons, List.flatten_cons, hF, this,
      List.length_cons, List.replicate, List.singleton_append]

theorem boundary_count_of_parts (l : List Piece) :
    (l.filter (fun p => decide (p.part = .boundary))).length =
      (((l.filter (fun p => decide (p.part = .token ∨ p.part = .boundary))).map
        (fun p => p.part)).filter (fun q => decide (q = Part.boundary))).length := by
  induction l with
  | nil => rfl
  | cons p t ih =>
    obtain ⟨part, text⟩ := p
    cases part <;> simp [List.filter, ih]

theorem boundary_count_intersperse (n : Nat) :
    (((List.replicate n Part.token).intersperse Part.boundary).filter
      (fun q => decide (q = Part.boundary))).length = n - 1 := by
  cases n with
  | zero => rfl
  | succ m =>
    rw [intersperse_replicate]
    induction m with
    | zero => rfl
    | succ j ih =>
      simp only [List.replicate, List.flatten_cons] at ih ⊢
      simp [List.filter] at ih ⊢

theorem boundary_count_replicate (n : Nat) :
    ((List.replicate n Part.token).filter (fun q => decide (q = Part.boundary))).length = 0 := by
  induction n with
  | zero => rfl
  | succ m ih => simp [List.replicate, List.filter]

theorem terminal_single_parts (lg : Lipgloss) (r : TerminalRenderer)
    (result : TokenizationResult) :
    ((TerminalRenderer.RenderSingleWrites lg r result).filter
        (fun p => decide (p.part = .token ∨ p.part = .boundary))).map (fun p => p.part) =
      if r.showBoundaries = true then
        (List.replicate result.Tokens.length Part.token).intersperse Part.boundary
      else List.replicate result.Tokens.length Part.token := by
  simp only [TerminalRenderer.RenderSingleWrites, List.filter_append, List.map_append, List.enum]
  rw [parts_flatten_enumFrom _ _ _
    (fun i a => terminal_tokenWrites_parts lg r result.Tokens.length i a)]
  cases hb : r.showBoundaries
  · rw [no_alternation Token result.Tokens
      (fun i => Part.token :: if (false && decide ((i : Int) < (result.Tokens.length : Int) - 1))
        = true then [Part.boundary] else []) (fun i => by simp) 0]
    simp [List.filter]
  · rw [terminal_alternation Token result.Tokens.length result.Tokens 0 (by omega)]
    simp [List.filter]

theorem html_result_parts (r : HTMLInlineRenderer) (result : TokenizationResult) :
    ((HTMLInlineRenderer.resultWrites r result).filter
        (fun p => decide (p.part = .token ∨ p.part = .boundary))).map (fun p => p.part) =
      if r.showBoundaries = true then
        (List.replicate result.Tokens.length Part.token).intersperse Part.boundary
      else List.replicate result.Tokens.length Part.token := by
  simp only [HTMLInlineRenderer.resultWrites, List.filter_append, List.map_append, List.enum]
  rw [parts_flatten_enumFrom _ _ _ (fun i a => html_tokenWrites_parts r i a)]
  cases hb : r.showBoundaries
  · rw [no_alternation Token result.Tokens
      (fun i => (if (false && decide (i > 0)) = true then [Part.boundary] else [])
        ++ [Part.token]) (fun i => by simp) 0]
    simp [List.filter]
  · rw [html_alternation Token result.Tokens]
    simp [List.filter]

theorem html_single_parts (r : HTMLInlineRenderer) (result : TokenizationResult) :
    ((HTMLInlineRenderer.RenderSingleWrites r result).filter
        (fun p => decide (p.part = .token ∨ p.part = .boundary))).map (fun p => p.part) =
      if r.showBoundaries = true then
        (List.replicate result.Tokens.length Part.token).intersperse Part.boundary
      else List.replicate result.Tokens.length Part.token := by
  simp only [HTMLInlineRenderer.RenderSingleWrites, List.filter_append, List.map_append,
    html_result_parts]
  simp [List.filter]

theorem boundary_count_of_sequence (l : List Piece) (b : Bool) (n : Nat)
    (h : (l.filter (fun p => decide (p.part = .token ∨ p.part = .boundary))).map
        (fun p => p.part) =
      if b = true then (List.replicate n Part.token).intersperse Part.boundary
      else List.replicate n Part.token) :
    (l.filter (fun p => decide (p.part = .boundary))).length = if b = true then n - 1 else 0 := by
  rw [boundary_count_of_parts, h]
  cases b
  · simp only [Bool.false_eq_true, if_false]; exact boundary_count_replicate n
  · simp only [if_true]; exact boundary_count_intersperse n

set_option maxRecDepth 100000 in
/-- C11. Boundary markers in the single-result views. The strings
`TerminalRenderer.RenderSingle` and `HTMLInlineRenderer.RenderSingle` return are the
concatenation of their writes and are given in full: in the Terminal view the styled `|` follows
the text of the token at position `i` exactly when `showBoundaries` is set and `i + 1 < n` (with
`showIDs` unset the token part is the styled token texts with the styled `|` interspersed); in
the HTML view the boundary span precedes the span of token `i` exactly when `showBoundaries` is
set and `0 < i`. The boundary writes are `n - 1` copies of that marker when `showBoundaries` is
set and none when it is unset (with no styling, the tokens `a` with ID 5 and `b` with ID -1
give the token line `a|[5]b`). In both views the writes that carry a token text or a boundary
marker are, in order, the `n` token texts with one boundary marker between every two adjacent ones
when `showBoundaries` is set (none before the first, none after the last), and the token texts
alone when it is unset; so `n - 1` boundary markers are written when it is set (0 for `n = 0`)
and none when it is unset. The HTML output then contains exactly that many occurrences of the
opening tag of a boundary span, whatever the token texts and the model name are. -/
theorem single_view_boundaries (lg : Lipgloss) (tr : TerminalRenderer)
    (hr : HTMLInlineRenderer) (result : TokenizationResult) :
    (TerminalRenderer.RenderSingle plainLipgloss { showIDs := true, showBoundaries := true }
        mixedResult = "🔤 m\n\nTotal tokens: 2\n\na|[5]b\n") ∧
    (TerminalRenderer.RenderSingle lg tr result =
      output (TerminalRenderer.RenderSingleWrites lg tr result)) ∧
    (TerminalRenderer.RenderSingle lg tr result =
        lg.Render headerStyle ("🔤 " ++ result.Model) ++ ("\n\n" ++
          (lg.Render statsStyle ("Total tokens: " ++ fmtInt result.TotalCount) ++ ("\n\n" ++
            (concatStrings (result.Tokens.enum.map (fun p =>
              lg.Render (tokenStyle p.1) p.2.Text ++
                ((if tr.showBoundaries = true ∧ p.1 + 1 < result.Tokens.length then
                    lg.Render (NewStyle.Foreground "238") "|" else "") ++
                 (if tr.showIDs = true ∧ 0 ≤ p.2.ID then
                    lg.Render tokenIDStyle ("[" ++ fmtInt p.2.ID ++ "]") else "")))) ++
              "\n"))))) ∧
    (∀ b : Bool,
      TerminalRenderer.RenderSingle lg { showIDs := false, showBoundaries := b } result =
        lg.Render headerStyle ("🔤 " ++ result.Model) ++ ("\n\n" ++
          (lg.Render statsStyle ("Total tokens: " ++ fmtInt result.TotalCount) ++ ("\n\n" ++
            (concatStrings
              (if b = true then
                (result.Tokens.enum.map (fun p => lg.Render (tokenStyle p.1) p.2.Text)).intersperse
                  (lg.Render (NewStyle.Foreground "238") "|")
               else result.Tokens.enum.map (fun p => lg.Render (tokenStyle p.1) p.2.Text)) ++
              "\n"))))) ∧
    ((TerminalRenderer.RenderSingleWrites lg tr result).filter
        (fun p => decide (p.part = .boundary)) =
      List.replicate (if tr.showBoundaries = true then result.Tokens.length - 1 else 0)
        { part := .boundary, text := lg.Render (NewStyle.Foreground "238") "|" }) ∧
    (HTMLInlineRenderer.RenderSingle hr result =
      output (HTMLInlineRenderer.RenderSingleWrites hr result)) ∧
    (HTMLInlineRenderer.RenderSingle hr result =
      "<!DOCTYPE html>\n<html>\n<head>\n" ++ ("<meta charset=\"UTF-8\">\n" ++
        ("<meta name=\"viewport\" content=\"width=device-width, initial-scale=1.0\">\n" ++
          ("<title>Token Visualization</title>\n" ++ (hr.generateCSS ++
            ("</head>\n<body>\n<div class=\"container\">\n" ++
              (("<div class=\"model-header\">" ++ escapeHTML result.Model ++ "</div>\n" ++
                ("<div class=\"token-count\">Total tokens: " ++ fmtInt result.TotalCount
                    ++ "</div>\n" ++
                  ("<div class=\"tokens\">\n" ++
                    (concatStrings (result.Tokens.enum.map (fun p =>
                      (if hr.showBoundaries = true ∧ 0 < p.1 then
                          "<span class=\"boundary\">|</span>" else "") ++
                        ("<span class=\"token token-" ++ fmtInt ((p.1 % 8 : Nat) : Int) ++ "\">"
                            ++ escapeHTML p.2.Text ++ "</span>" ++
                          (if hr.showIDs = true then
                            "<span class=\"token-id\">[" ++ fmtInt p.2.ID ++ "]</span>"
                           else "")))) ++
                      "\n</div>\n")))) ++
                "</div>\n</body>\n</html>\n"))))))) ∧
    ((HTMLInlineRenderer.RenderSingleWrites hr result).filter
        (fun p => decide (p.part = .boundary)) =
      List.replicate (if hr.showBoundaries = true then result.Tokens.length - 1 else 0)
        { part := .boundary, text := "<span class=\"boundary\">|</span>" }) ∧
    (((TerminalRenderer.RenderSingleWrites lg tr result).filter
        (fun p => decide (p.part = .token ∨ p.part = .boundary))).map (fun p => p.part) =
      if tr.showBoundaries = true then
        (List.replicate result.Tokens.length Part.token).intersperse Part.boundary
      else List.replicate result.Tokens.length Part.token) ∧
    ((TerminalRenderer.RenderSingleWrites lg tr result).filter
        (fun p => decide (p.part = .boundary))).length =
      (if tr.showBoundaries = true then result.Tokens.length - 1 else 0) ∧
    (((HTMLInlineRenderer.RenderSingleWrites hr result).filter
        (fun p => decide (p.part = .token ∨ p.part = .boundary))).map (fun p => p.part) =
      if hr.showBoundaries = true then
        (List.replicate result.Tokens.length Part.token).intersperse Part.boundary
      else List.replicate result.Tokens.length Part.token) ∧
    ((HTMLInlineRenderer.RenderSingleWrites hr result).filter
        (fun p => decide (p.part = .boundary))).length =
      (if hr.showBoundaries = true then result.Tokens.length - 1 else 0) ∧
    occurrences boundaryTag.data (HTMLInlineRenderer.RenderSingle hr result).data =
      (if hr.showBoundaries = true then result.Tokens.length - 1 else 0) := by
  have h1 := terminal_single_parts lg tr result
  have h2 := html_single_parts hr result
  have h3 := boundary_count_of_sequence _ _ _ h2
  refine ⟨by decide, rfl, terminal_RenderSingle_string lg tr result,
    fun b => terminal_RenderSingle_interspersed lg b result,
    terminal_boundary_writes lg tr result, rfl, html_RenderSingle_closed hr result,
    html_boundary_writes hr result, h1, boundary_count_of_sequence _ _ _ h1, h2, h3, ?_⟩
  have h4 : occurrences boundaryTag.data
      ((output (HTMLInlineRenderer.RenderSingleWrites hr result)).data ++ []) =
      ((HTMLInlineRenderer.RenderSingleWrites hr result).filter
        (fun p => decide (p.part = .boundary))).length + occurrences boundaryTag.data [] :=
    addsTags_output _ (html_RenderSingleWrites_tags hr result) []
  have h5 : occurrences boundaryTag.data [] = 0 := rfl
  rw [List.append_nil, h5, Nat.add_zero] at h4
  rw [HTMLInlineRenderer.RenderSingle, h4, h3]

/-! ## Markdown table -/

theorem concatStrings_data (l : List String) :
    (concatStrings l).data = (l.map String.data).flatten := by
  induction l with
  | nil => rfl
  | cons a t ih => simp only [concatStrings, String.data_append, ih, List.map_cons,
      List.flatten_cons]

theorem replaceAllChar_data (s : String) (old : Char) (new : String) :
    (replaceAllChar s old new).data =
      (s.data.map (fun c => if c = old then new.data else [c])).flatten := by
  simp only [replaceAllChar, concatStrings_data, List.map_map]
  congr 1
  apply List.map_congr_left
  intro c _
  by_cases h : c = old
  · simp [h]
  · simp only [Function.comp, h, if_false]; rfl

theorem cell_data (text : String) :
    (replaceAllChar (replaceAllChar text '|' "\\|") '\n' "\\n").data =
      (text.data.map cellChar).flatten := by
  rw [replaceAllChar_data, replaceAllChar_data]
  induction text.data with
  | nil => rfl
  | cons a t ih =>
    simp only [List.map_cons, List.flatten_cons, List.map_append, List.flatten_append, ih]
    congr 1
    unfold cellChar
    by_cases h1 : a = '|'
    · subst h1; decide
    · by_cases h2 : a = '\n'
      · subst h2; decide
      · simp [h1, h2]

theorem cell_no_newline (cs : List Char) : '\n' ∉ (cs.map cellChar).flatten := by
  induction cs with
  | nil => simp
  | cons a t ih =>
    simp only [List.map_cons, List.flatten_cons, List.mem_append, not_or]
    refine ⟨?_, ih⟩
    unfold cellChar
    by_cases h1 : a = '|'
    · subst h1; decide
    · by_cases h2 : a = '\n'
      · subst h2; decide
      · simp only [h1, h2, if_false, List.mem_singleton]
        exact fun h => h2 h.symm

theorem cell_pipesEscaped (cs : List Char) :
    ∀ b, pipesEscapedFrom b ((cs.map cellChar).flatten) = true := by
  induction cs with
  | nil => intro b; rfl
  | cons a t ih =>
    intro b
    simp only [List.map_cons, List.flatten_cons]
    by_cases h1 : a = '|'
    · have hc : cellChar a = ['\\', '|'] := by subst h1; rfl
      rw [hc]
      show pipesEscapedFrom b ('\\' :: '|' :: (t.map cellChar).flatten) = true
      simp [pipesEscapedFrom, ih]
    · by_cases h2 : a = '\n'
      · have hc : cellChar a = ['\\', 'n'] := by subst h2; rfl
        rw [hc]
        show pipesEscapedFrom b ('\\' :: 'n' :: (t.map cellChar).flatten) = true
        simp [pipesEscapedFrom, ih]
      · have hc : cellChar a = [a] := by simp [cellChar, h1, h2]
        rw [hc]
        show pipesEscapedFrom b (a :: (t.map cellChar).flatten) = true
        simp [pipesEscapedFrom, ih, h1]

theorem fmtInt_no_newline (v : Int) : '\n' ∉ (fmtInt v).data := by
  intro hc
  rcases intToDecimal_chars v '\n' hc with h | h
  · revert h; decide
  · revert h; decide

theorem tableRow_shape (r : MarkdownRenderer) (i : Nat) (tok : Token) :
    ∃ cell tail : String,
      MarkdownRenderer.tableRow r i tok = "| " ++ fmtInt ((i : Int) + 1) ++ " | `" ++ cell ++ tail ∧
      (tail = "` | " ++ fmtInt tok.ID ++ " |\n" ∨ tail = "` | |\n") ∧
      cell.data = (tok.Text.data.map cellChar).flatten ∧
      '\n' ∉ cell.data ∧ pipesEscaped cell.data = true ∧
      IsLine (MarkdownRenderer.tableRow r i tok) := by
  have hcell := cell_data tok.Text
  have hnl : '\n' ∉ (replaceAllChar (replaceAllChar tok.Text '|' "\\|") '\n' "\\n").data := by
    rw [hcell]; exact cell_no_newline _
  have hnum := fmtInt_no_newline ((i : Int) + 1)
  have hid := fmtInt_no_newline tok.ID
  cases hs : r.showIDs
  · refine ⟨replaceAllChar (replaceAllChar tok.Text '|' "\\|") '\n' "\\n", "` | |\n", ?_,
      Or.inr rfl, hcell, hnl, ?_, ?_⟩
    · simp only [MarkdownRenderer.tableRow, hs, Bool.false_eq_true, if_false]
    · rw [pipesEscaped, hcell]; exact cell_pipesEscaped _ _
    · refine ⟨("| " ++ fmtInt ((i : Int) + 1) ++ " | `"
        ++ replaceAllChar (replaceAllChar tok.Text '|' "\\|") '\n' "\\n").data
        ++ ['`', ' ', '|', ' ', '|'], ?_, ?_⟩
      · simp only [MarkdownRenderer.tableRow, hs, Bool.false_eq_true, if_false,
          String.data_append]
        simp
      · simp only [String.data_append, List.mem_append, not_or]
        exact ⟨⟨⟨⟨by decide, hnum⟩, by decide⟩, hnl⟩, by decide⟩
  · refine ⟨replaceAllChar (replaceAllChar tok.Text '|' "\\|") '\n' "\\n",
      "` | " ++ fmtInt tok.ID ++ " |\n", ?_, Or.inl rfl, hcell, hnl, ?_, ?_⟩
    · simp only [MarkdownRenderer.tableRow, hs, if_true]
      exact String.ext (by simp [String.data_append])
    · rw [pipesEscaped, hcell]; exact cell_pipesEscaped _ _
    · refine ⟨("| " ++ fmtInt ((i : Int) + 1) ++ " | `"
        ++ replaceAllChar (replaceAllChar tok.Text '|' "\\|") '\n' "\\n" ++ "` | "
        ++ fmtInt tok.ID).data ++ [' ', '|'], ?_, ?_⟩
      · simp only [MarkdownRenderer.tableRow, hs, if_true, String.data_append]
        simp
      · simp only [String.data_append, List.mem_append, not_or]
        exact ⟨⟨⟨⟨⟨⟨by decide, hnum⟩, by decide⟩, hnl⟩, by decide⟩, hid⟩, by decide⟩

theorem get?_map_enumFrom {α β : Type} (g : Nat × α → β) (l : List α) :
    ∀ k i a, l.get? i = some a → ((l.enumFrom k).map g).get? i = some (g (k + i, a)) := by
  induction l with
  | nil => intro k i a h; simp at h
  | cons b t ih =>
    intro k i a h
    cases i with
    | zero =>
      simp only [List.get?_cons_zero, Option.some.injEq] at h
      subst h
      simp [List.enumFrom]
    | succ j =>
      simp only [List.get?_cons_succ] at h
      have := ih (k + 1) j a h
      simp only [List.enumFrom_cons, List.map_cons, List.get?_cons_succ, this]
      congr 3
      omega

theorem tableRows_lines (r : MarkdownRenderer) (tokens : List Token) :
    ∀ line ∈ MarkdownRenderer.tableRows r tokens, IsLine line := by
  intro line hl
  simp only [MarkdownRenderer.tableRows, List.mem_map] at hl
  obtain ⟨p, _, hp⟩ := hl
  obtain ⟨_, _, _, _, _, _, _, hline⟩ := tableRow_shape r p.1 p.2
  rw [← hp]; exact hline

/-- C13. Markdown table well-formedness. For a result with at least one token whose first
token has a non-negative ID, whatever the token texts are, `MarkdownRenderer.RenderSingle`
writes after the `## Tokens` heading exactly `n + 2` lines, each ended by its only newline: the
header row, the separator row and one data row per token. The data row of the token at
0-based position `i` starts with `| i+1 | ` and a backquote, followed by the text cell, in which
every `|` of the token text has become a backslash and `|` and every newline a backslash and
`n`: the cell has no newline and each of its `|` is directly preceded by a backslash. -/
theorem markdown_table_well_formed (r : MarkdownRenderer) (result : TokenizationResult)
    (first : Token) (others : List Token) (hT : result.Tokens = first :: others)
    (hid : 0 ≤ first.ID) :
    MarkdownRenderer.RenderSingle r result =
      ("# " ++ result.Model ++ "\n\n") ++
        (("**Total tokens:** " ++ fmtInt result.TotalCount ++ "\n\n") ++
          ("## Tokens\n\n" ++
            concatStrings ("| # | Text | ID |\n" :: "|---|------|----|\n" ::
              MarkdownRenderer.tableRows r result.Tokens))) ∧
    ("| # | Text | ID |\n" :: "|---|------|----|\n" ::
      MarkdownRenderer.tableRows r result.Tokens).length = result.Tokens.length + 2 ∧
    (∀ line ∈ "| # | Text | ID |\n" :: "|---|------|----|\n" ::
      MarkdownRenderer.tableRows r result.Tokens, IsLine line) ∧
    (∀ i tok, result.Tokens.get? i = some tok → ∃ cell tail : String,
      (MarkdownRenderer.tableRows r result.Tokens).get? i =
        some ("| " ++ fmtInt ((i : Int) + 1) ++ " | `" ++ cell ++ tail) ∧
      (tail = "` | " ++ fmtInt tok.ID ++ " |\n" ∨ tail = "` | |\n") ∧
      cell.data = (tok.Text.data.map cellChar).flatten ∧
      '\n' ∉ cell.data ∧ pipesEscaped cell.data = true) := by
  have hfirst : firstTokenHasID result = true := by
    simp only [firstTokenHasID, hT, ge_iff_le, decide_eq_true_eq]
    exact hid
  refine ⟨?_, ?_, ?_, ?_⟩
  · simp only [MarkdownRenderer.RenderSingle, hfirst, if_true, List.cons_append,
      List.nil_append, concatStrings]
  · simp [MarkdownRenderer.tableRows]
  · intro line hl
    rcases List.mem_cons.mp hl with h | h
    · rw [h]; exact ⟨"| # | Text | ID |".data, by decide, by decide⟩
    · rcases List.mem_cons.mp h with h2 | h2
      · rw [h2]; exact ⟨"|---|------|----|".data, by decide, by decide⟩
      · exact tableRows_lines r _ line h2
  · intro i tok hget
    obtain ⟨cell, tail, hrow, htail, hcell, hnl, hpipes, _⟩ := tableRow_shape r i tok
    refine ⟨cell, tail, ?_, htail, hcell, hnl, hpipes⟩
    have := get?_map_enumFrom (fun p => MarkdownRenderer.tableRow r p.1 p.2) result.Tokens 0 i
      tok hget
    simp only [Nat.zero_add] at this
    rw [← hrow]
    exact this

/-- Witness of C13: a result with the token texts `a|b` and a text ending in a newline. -/
theorem markdown_table_well_formed_witness :
    ("| # | Text | ID |\n" :: "|---|------|----|\n" ::
      MarkdownRenderer.tableRows { showIDs := true } pipeResult.Tokens).length = 2 + 2 ∧
    (∀ line ∈ "| # | Text | ID |\n" :: "|---|------|----|\n" ::
      MarkdownRenderer.tableRows { showIDs := true } pipeResult.Tokens, IsLine line) :=
  ⟨(markdown_table_well_formed { showIDs := true } pipeResult _ _ rfl (by decide)).2.1,
   (markdown_table_well_formed { showIDs := true } pipeResult _ _ rfl (by decide)).2.2.1⟩

end TokenVisualizer
